import Mathlib

/-!
Verification of the code-review assignment backend (AvitoNovember).

The relational store is embedded as a pure state value `DB` holding the four
tables (teams, users, pull_requests, pull_request_reviewers).  Repository
operations are translated from the SQL in internal/repository: reads are pure
functions on `DB`, writes return the produced value together with the updated
`DB` (an error leaves the state as it was at that point, matching a rolled
back or unexecuted statement).  The service layer is translated from
internal/service; its source of randomness (math/rand) is abstracted as a
function `r : Nat → Nat`, where `r i` stands for the value of Intn(i+1) at
step i of the Fisher-Yates loop in Service.shuffle.  Timestamps (time.Now)
are passed in as an explicit `now : Nat`.

The model package of the repository is not part of the provided sources; its
types (Team, User, PullRequest, statuses, error codes) are modelled from the
spec, see the doc comments below.
-/

namespace AvitoReview

/-- Modelled from the spec: the closed set of domain error codes of the
missing model package (spec section 7). -/
inductive ErrorCode where
  | NotFound
  | TeamExists
  | PRExists
  | PRMerged
  | NotAssigned
  | NoCandidate
  deriving DecidableEq, Repr

/-- Sentinel errors of the repository package. -/
inductive RepoError where
  | teamExists
  | userNotFound
  | teamNotFound
  | prExists
  | prNotFound
  | other (msg : String)
  deriving DecidableEq, Repr

/-- A service-layer error: either a typed DomainError or a raw store error
propagated unwrapped. -/
inductive SvcError where
  | domain (code : ErrorCode) (msg : String)
  | store (e : RepoError)
  deriving DecidableEq, Repr

/-- Translation of AsDomainError combined with the NoCandidate code test used
in Service.DeactivateTeamUsersAndReassign. -/
def SvcError.isNoCandidate : SvcError → Bool
  | .domain .NoCandidate _ => true
  | _ => false

/-- Modelled from the spec: model.StatusOpen of the missing model package
(spec: status is OPEN or MERGED; the repository SQL writes the literal
MERGED). -/
def statusOpen : String := "OPEN"

/-- Modelled from the spec: model.StatusMerged of the missing model package. -/
def statusMerged : String := "MERGED"

/-- Modelled from the spec: model.TeamMember. -/
structure TeamMember where
  userID : String
  username : String
  isActive : Bool
  deriving DecidableEq, Repr

/-- Modelled from the spec: model.Team. -/
structure Team where
  teamName : String
  members : List TeamMember
  deriving DecidableEq, Repr

/-- Modelled from the spec: model.User, one row of the users table. -/
structure User where
  userID : String
  username : String
  teamName : String
  isActive : Bool
  deriving DecidableEq, Repr

/-- Modelled from the spec: model.PullRequest. -/
structure PullRequest where
  id : String
  name : String
  authorID : String
  status : String
  assignedReviewers : List String
  createdAt : Option Nat
  mergedAt : Option Nat
  deriving DecidableEq, Repr

/-- Modelled from the spec: model.PullRequestShort. -/
structure PullRequestShort where
  id : String
  name : String
  authorID : String
  status : String
  deriving DecidableEq, Repr

/-- One row of the pull_requests table. -/
structure PRRow where
  id : String
  name : String
  authorID : String
  status : String
  createdAt : Nat
  mergedAt : Option Nat
  deriving DecidableEq, Repr

/-- The relational store: the four tables of the schema in
internal/repository.  Reviewer bindings are pairs
(pull_request_id, reviewer_id). -/
structure DB where
  teams : List String
  users : List User
  prs : List PRRow
  reviewers : List (String × String)
  deriving DecidableEq, Repr

/-- The integrity assumptions the schema enforces: primary keys of the four
tables and the two foreign keys consulted by the claims. -/
def DB.WF (db : DB) : Prop :=
  db.teams.Nodup ∧
  (db.users.map (·.userID)).Nodup ∧
  (db.prs.map (·.id)).Nodup ∧
  db.reviewers.Nodup ∧
  (∀ u ∈ db.users, u.teamName ∈ db.teams) ∧
  (∀ b ∈ db.reviewers, b.1 ∈ db.prs.map (·.id) ∧ b.2 ∈ db.users.map (·.userID))

instance (db : DB) : Decidable db.WF := by
  unfold DB.WF
  infer_instance

/-- SELECT of a single user row by primary key. -/
def findUser (db : DB) (userID : String) : Option User :=
  db.users.find? (fun u => u.userID = userID)

/-- SELECT of a single pull_requests row by primary key. -/
def findPR (db : DB) (prID : String) : Option PRRow :=
  db.prs.find? (fun p => p.id = prID)

/-- The reviewer ids bound to a pull request, in table order. -/
def reviewersOf (db : DB) (prID : String) : List String :=
  (db.reviewers.filter (fun b => b.1 = prID)).map (·.2)

/-- One in-place swap of the Fisher-Yates loop body of Service.shuffle
(ids[i], ids[j] = ids[j], ids[i]); out of range indices leave the list
unchanged, which the real loop never produces. -/
def listSwap (l : List String) (i j : Nat) : List String :=
  match l[i]?, l[j]? with
  | some a, some b => (l.set i b).set j a
  | _, _ => l

theorem listSwap_perm (l : List String) (i j : Nat) : List.Perm (listSwap l i j) l := by
  unfold listSwap
  cases hi : l[i]? with
  | none => exact List.Perm.refl l
  | some a =>
    cases hj : l[j]? with
    | none => exact List.Perm.refl l
    | some b =>
      obtain ⟨hil, hia⟩ := List.getElem?_eq_some.mp hi
      obtain ⟨hjl, hjb⟩ := List.getElem?_eq_some.mp hj
      have hjl2 : j < (l.set i b).length := by simpa using hjl
      rw [List.perm_iff_count]
      intro x
      have c2 := List.count_set a x (l.set i b) j hjl2
      have c1 := List.count_set b x l i hil
      have hmjb : (l.set i b)[j] = b := by
        rw [List.getElem_set]
        split
        · rfl
        · exact hjb
      rw [hmjb, c1, hia] at c2
      have hmem : a ∈ l := hia ▸ List.getElem_mem hil
      have hpos : a = x → 0 < l.count x := by
        intro h
        exact List.count_pos_iff.mpr (h ▸ hmem)
      by_cases hax : a = x <;> by_cases hbx : b = x <;>
        simp only [hax, hbx, beq_self_eq_true, if_true, beq_iff_eq, if_neg, reduceIte] at c2 <;>
        simp_all

/-- Translation of Service.shuffle: for i in range, j := rand.Intn(i+1),
swap ids[i] and ids[j].  The random draw at step i is abstracted as r i. -/
def shuffle (r : Nat → Nat) (ids : List String) : List String :=
  (List.range ids.length).foldl (fun acc i => listSwap acc i (r i)) ids

theorem foldl_listSwap_perm (r : Nat → Nat) (idx : List Nat) (l : List String) :
    List.Perm (idx.foldl (fun acc i => listSwap acc i (r i)) l) l := by
  induction idx generalizing l with
  | nil => exact List.Perm.refl l
  | cons i rest ih =>
    exact (ih (listSwap l i (r i))).trans (listSwap_perm l i (r i))

theorem shuffle_perm (r : Nat → Nat) (ids : List String) :
    List.Perm (shuffle r ids) ids :=
  foldl_listSwap_perm r (List.range ids.length) ids

theorem find?_map_pred {α : Type} (f : α → α) (p : α → Bool) (hp : ∀ a, p (f a) = p a)
    (l : List α) : (l.map f).find? p = (l.find? p).map f := by
  induction l with
  | nil => rfl
  | cons a t ih =>
    simp only [List.map_cons]
    cases h : p a with
    | true =>
      rw [List.find?_cons_of_pos _ (by rw [hp]; exact h), List.find?_cons_of_pos _ h]
      rfl
    | false =>
      rw [List.find?_cons_of_neg _ (by simp [hp a, h]), List.find?_cons_of_neg _ (by simp [h]), ih]

theorem findUser_some {db : DB} {uid : String} {u : User} (h : findUser db uid = some u) :
    u ∈ db.users ∧ u.userID = uid := by
  refine ⟨List.mem_of_find?_eq_some h, ?_⟩
  have := List.find?_some h
  simpa using this

theorem findUser_none {db : DB} {uid : String} (h : findUser db uid = none) :
    ∀ u ∈ db.users, u.userID ≠ uid := by
  intro u hu
  have := List.find?_eq_none.mp h u hu
  simpa using this

namespace Repository

/-- Translation of Repository.GetUser (SELECT a user by id, ErrUserNotFound
when absent). -/
def getUser (db : DB) (userID : String) : Except RepoError User :=
  match findUser db userID with
  | none => .error .userNotFound
  | some u => .ok u

/-- Translation of Repository.SetUserActive (UPDATE users SET is_active
RETURNING the updated row, ErrUserNotFound when no row matches). -/
def setUserActive (db : DB) (userID : String) (active : Bool) :
    Except RepoError User × DB :=
  match findUser db userID with
  | none => (.error .userNotFound, db)
  | some u =>
    (.ok { u with isActive := active },
     { db with users := (db.users.map
         (fun v => if v.userID = userID then { v with isActive := active } else v)) })

/-- Translation of Repository.GetActiveUsersByTeam (team existence check then
SELECT users of the team with is_active = TRUE). -/
def getActiveUsersByTeam (db : DB) (teamName : String) :
    Except RepoError (List User) :=
  if teamName ∈ db.teams then
    .ok (db.users.filter (fun u => u.teamName = teamName ∧ u.isActive = true))
  else .error .teamNotFound

/-- One member upsert of Repository.CreateTeam (INSERT ... ON CONFLICT (id)
DO UPDATE SET username, is_active, team_name). -/
def upsertMember (users : List User) (teamName : String) (m : TeamMember) :
    List User :=
  if users.any (fun u => u.userID = m.userID) then
    users.map (fun u =>
      if u.userID = m.userID then
        { userID := m.userID, username := m.username,
          teamName := teamName, isActive := m.isActive }
      else u)
  else
    users ++ [{ userID := m.userID, username := m.username,
                teamName := teamName, isActive := m.isActive }]

/-- Translation of Repository.CreateTeam: inside one transaction, existence
check, team insert, then the per-member upserts. -/
def createTeam (db : DB) (teamName : String) (members : List TeamMember) :
    Except RepoError Unit × DB :=
  if teamName ∈ db.teams then (.error .teamExists, db)
  else
    (.ok (),
     { db with teams := db.teams ++ [teamName],
               users := (members.foldl (fun us m => upsertMember us teamName m) db.users) })

instance decRelMemberLE :
    DecidableRel (fun a b : TeamMember => a.userID ≤ b.userID) :=
  fun a b => inferInstanceAs (Decidable (a.userID ≤ b.userID))

instance decRelUserLE : DecidableRel (fun a b : User => a.userID ≤ b.userID) :=
  fun a b => inferInstanceAs (Decidable (a.userID ≤ b.userID))

instance decRelPRRowGE : DecidableRel (fun a b : PRRow => b.createdAt ≤ a.createdAt) :=
  fun a b => inferInstanceAs (Decidable (b.createdAt ≤ a.createdAt))

/-- Translation of Repository.GetTeam (existence check, then the member rows
ordered by id). -/
def getTeam (db : DB) (teamName : String) : Except RepoError Team :=
  if teamName ∈ db.teams then
    .ok { teamName := teamName,
          members := ((db.users.filter (fun u => u.teamName = teamName)).insertionSort
              (fun a b => a.userID ≤ b.userID)).map
              (fun u => { userID := u.userID, username := u.username,
                          isActive := u.isActive }) }
  else .error .teamNotFound

/-- Translation of Repository.GetPR (the row by id, plus its reviewer ids
ordered by reviewer_id). -/
def getPR (db : DB) (prID : String) : Except RepoError PullRequest :=
  match findPR db prID with
  | none => .error .prNotFound
  | some row =>
    .ok { id := row.id, name := row.name, authorID := row.authorID,
          status := row.status,
          assignedReviewers := (reviewersOf db prID).insertionSort (· ≤ ·),
          createdAt := some row.createdAt, mergedAt := row.mergedAt }

/-- Translation of Repository.CreatePRWithReviewers: inside one transaction,
existence check, insert of the pull_requests row (created_at := now), then one
insert per assigned reviewer. -/
def createPRWithReviewers (db : DB) (now : Nat) (pr : PullRequest) :
    Except RepoError Unit × DB :=
  if db.prs.any (fun p => p.id = pr.id) then (.error .prExists, db)
  else
    (.ok (),
     { db with
       prs := db.prs ++ [{ id := pr.id, name := pr.name, authorID := pr.authorID,
                           status := pr.status, createdAt := now, mergedAt := none }],
       reviewers := db.reviewers ++ pr.assignedReviewers.map (fun rid => (pr.id, rid)) })

/-- Translation of Repository.MarkPRMerged: UPDATE SET status = MERGED,
merged_at = COALESCE(merged_at, now()) WHERE id RETURNING the row, then the
reviewer ids of the updated state. -/
def markPRMerged (db : DB) (now : Nat) (prID : String) :
    Except RepoError PullRequest × DB :=
  match findPR db prID with
  | none => (.error .prNotFound, db)
  | some row =>
    let row2 : PRRow :=
      { row with status := statusMerged, mergedAt := some (row.mergedAt.getD now) }
    let db2 : DB := { db with prs := (db.prs.map (fun p =>
      if p.id = prID then
        { p with status := statusMerged, mergedAt := some (p.mergedAt.getD now) }
      else p)) }
    (.ok { id := row2.id, name := row2.name, authorID := row2.authorID,
           status := row2.status,
           assignedReviewers := (reviewersOf db2 prID).insertionSort (· ≤ ·),
           createdAt := some row2.createdAt, mergedAt := row2.mergedAt }, db2)

/-- Translation of Repository.ReassignReviewer: UPDATE the binding row from
the old to the new reviewer id; zero rows affected is the invariant error
(the new id colliding with an existing binding cannot arise on the service
call path, which excludes assigned reviewers, so the composite primary key
violation is not modelled). -/
def reassignReviewer (db : DB) (prID oldReviewerID newReviewerID : String) :
    Except RepoError Unit × DB :=
  if db.reviewers.any (fun b => b.1 = prID ∧ b.2 = oldReviewerID) then
    (.ok (), { db with reviewers := (db.reviewers.map
        (fun b => if b.1 = prID ∧ b.2 = oldReviewerID then (prID, newReviewerID) else b)) })
  else (.error (.other "no reviewer row updated"), db)

/-- Translation of Repository.GetPRsForReviewer: the pull requests joined to
a binding of this reviewer, newest first (each request appears at most once
by the composite primary key). -/
def getPRsForReviewer (db : DB) (userID : String) : List PullRequestShort :=
  ((db.prs.filter (fun p => (p.id, userID) ∈ db.reviewers)).insertionSort
      (fun a b => b.createdAt ≤ a.createdAt)).map
    (fun p => { id := p.id, name := p.name, authorID := p.authorID, status := p.status })

/-- Translation of Repository.RemoveReviewer (DELETE the binding row; absent
rows make it a no-op). -/
def removeReviewer (db : DB) (prID reviewerID : String) : DB :=
  { db with reviewers := (db.reviewers.filter
      (fun b => ¬(b.1 = prID ∧ b.2 = reviewerID))) }

end Repository

namespace Service

/-- Input of Service.CreatePR. -/
structure CreatePRInput where
  id : String
  name : String
  authorID : String
  deriving DecidableEq, Repr

/-- Result of Service.ReassignReviewer. -/
structure ReassignResult where
  pr : PullRequest
  replacedBy : String
  deriving DecidableEq, Repr

/-- Result of Service.DeactivateTeamUsersAndReassign. -/
structure BulkDeactivateResult where
  teamName : String
  deactivated : List String
  reassignedReviewers : Nat
  removedReviewers : Nat
  affectedPullRequests : Nat
  deriving DecidableEq, Repr

/-- Translation of Service.AddTeam: CreateTeam, mapping ErrTeamExists to the
TeamExists domain error, then GetTeam on the fresh name. -/
def AddTeam (db : DB) (team : Team) : Except SvcError Team × DB :=
  match Repository.createTeam db team.teamName team.members with
  | (.error .teamExists, db1) =>
    (.error (.domain .TeamExists "team_name already exists"), db1)
  | (.error e, db1) => (.error (.store e), db1)
  | (.ok _, db1) =>
    match Repository.getTeam db1 team.teamName with
    | .error e => (.error (.store e), db1)
    | .ok t => (.ok t, db1)

/-- Translation of Service.GetUserReviews: the id is echoed and the repo
error (never a not-found classification) is surfaced as is; the pure store
read cannot fail here. -/
def GetUserReviews (db : DB) (userID : String) :
    String × List PullRequestShort × Option SvcError :=
  (userID, Repository.getPRsForReviewer db userID, none)

/-- Reviewer selection block of Service.CreatePR: drop the author from the
candidate list, shuffle, keep at most the first two. -/
def pickReviewers (r : Nat → Nat) (author : User) (candidates : List User) :
    List String :=
  let reviewerIDs :=
    (candidates.filter (fun u => ¬ u.userID = author.userID)).map (·.userID)
  let shuffled := shuffle r reviewerIDs
  if shuffled.length > 2 then shuffled.take 2 else shuffled

/-- Insertion block of Service.CreatePR: store the pull request with the
chosen reviewers and return the stored record. -/
def finishCreatePR (now : Nat) (db : DB) (inp : CreatePRInput)
    (chosen : List String) : Except SvcError PullRequest × DB :=
  let pr : PullRequest :=
    { id := inp.id, name := inp.name, authorID := inp.authorID,
      status := statusOpen, assignedReviewers := chosen,
      createdAt := none, mergedAt := none }
  match Repository.createPRWithReviewers db now pr with
  | (.error .prExists, db1) =>
    (.error (.domain .PRExists "PR id already exists"), db1)
  | (.error e, db1) => (.error (.store e), db1)
  | (.ok _, db1) =>
    match Repository.getPR db1 inp.id with
    | .error e => (.error (.store e), db1)
    | .ok stored => (.ok stored, db1)

/-- Translation of Service.CreatePR: fetch the author, fetch the active
users of the team of the author, drop the author, shuffle, keep at most two,
insert the pull request with its reviewer bindings, and return the stored
record. -/
def CreatePR (r : Nat → Nat) (now : Nat) (db : DB) (inp : CreatePRInput) :
    Except SvcError PullRequest × DB :=
  match Repository.getUser db inp.authorID with
  | .error .userNotFound => (.error (.domain .NotFound "author not found"), db)
  | .error e => (.error (.store e), db)
  | .ok author =>
    match Repository.getActiveUsersByTeam db author.teamName with
    | .error .teamNotFound => (.error (.domain .NotFound "team not found"), db)
    | .error e => (.error (.store e), db)
    | .ok candidates =>
      finishCreatePR now db inp (pickReviewers r author candidates)

/-- Translation of Service.MergePR. -/
def MergePR (db : DB) (now : Nat) (prID : String) :
    Except SvcError PullRequest × DB :=
  match Repository.markPRMerged db now prID with
  | (.error .prNotFound, db1) =>
    (.error (.domain .NotFound "pull request not found"), db1)
  | (.error e, db1) => (.error (.store e), db1)
  | (.ok pr, db1) => (.ok pr, db1)

/-- Translation of Service.ReassignReviewer: the guard sequence (pull
request found, not merged, old user found, old user assigned), then the
eligible pool (active teammates minus assigned reviewers, the old reviewer
and the author), shuffle and take the first, swap the binding row, and
return the re-read pull request. -/
def ReassignReviewer (r : Nat → Nat) (db : DB) (prID oldUserID : String) :
    Except SvcError ReassignResult × DB :=
  match Repository.getPR db prID with
  | .error .prNotFound =>
    (.error (.domain .NotFound "pull request not found"), db)
  | .error e => (.error (.store e), db)
  | .ok pr =>
    if pr.status = statusMerged then
      (.error (.domain .PRMerged "cannot reassign on merged PR"), db)
    else
      match Repository.getUser db oldUserID with
      | .error .userNotFound => (.error (.domain .NotFound "user not found"), db)
      | .error e => (.error (.store e), db)
      | .ok oldUser =>
        if oldUserID ∈ pr.assignedReviewers then
          match Repository.getActiveUsersByTeam db oldUser.teamName with
          | .error .teamNotFound => (.error (.domain .NotFound "team not found"), db)
          | .error e => (.error (.store e), db)
          | .ok candidates =>
            let excluded := oldUserID :: pr.authorID :: pr.assignedReviewers
            let eligible :=
              (candidates.filter (fun u => ¬ u.userID ∈ excluded)).map (·.userID)
            if eligible.isEmpty then
              (.error (.domain .NoCandidate "no active replacement candidate in team"), db)
            else
              let newReviewer := (shuffle r eligible).headD ""
              match Repository.reassignReviewer db prID oldUserID newReviewer with
              | (.error e, db1) => (.error (.store e), db1)
              | (.ok _, db1) =>
                match Repository.getPR db1 prID with
                | .error e => (.error (.store e), db1)
                | .ok updated => (.ok { pr := updated, replacedBy := newReviewer }, db1)
        else
          (.error (.domain .NotAssigned "reviewer is not assigned to this PR"), db)

/-- The running state of the two loops of
Service.DeactivateTeamUsersAndReassign: the evolving store, the two
counters, and the keys of the affectedPRs set (kept as a duplicate-free
list in insertion order; only its cardinality is observed). -/
structure BulkSt where
  db : DB
  reassigned : Nat
  removed : Nat
  affected : List String
  deriving DecidableEq, Repr

/-- Recording a pull request id in the affectedPRs set. -/
def insertAffected (s : List String) (id : String) : List String :=
  if id ∈ s then s else s ++ [id]

/-- The inner loop of Service.DeactivateTeamUsersAndReassign over the pull
requests of one processed user: skip non OPEN requests, reassign, fall back
to removal on NoCandidate, abort on any other error. -/
def processPRs (r : Nat → Nat) (uid : String) :
    List PullRequestShort → BulkSt → Option SvcError × BulkSt
  | [], st => (none, st)
  | p :: rest, st =>
    if ¬ p.status = statusOpen then processPRs r uid rest st
    else
      match ReassignReviewer r st.db p.id uid with
      | (.ok rr, db1) =>
        processPRs r uid rest
          { db := db1, reassigned := st.reassigned + 1,
            removed := st.removed, affected := insertAffected st.affected rr.pr.id }
      | (.error e, db1) =>
        if e.isNoCandidate then
          processPRs r uid rest
            { db := Repository.removeReviewer db1 p.id uid,
              reassigned := st.reassigned, removed := st.removed + 1,
              affected := insertAffected st.affected p.id }
        else (some e, { st with db := db1 })

/-- The outer loop of Service.DeactivateTeamUsersAndReassign over the
processed users: fetch the reviews of each and run the inner loop. -/
def processUsers (r : Nat → Nat) :
    List String → BulkSt → Option SvcError × BulkSt
  | [], st => (none, st)
  | uid :: rest, st =>
    match processPRs r uid (Repository.getPRsForReviewer st.db uid) st with
    | (none, st1) => processUsers r rest st1
    | (some e, st1) => (some e, st1)

/-- The validation loop of Service.DeactivateTeamUsersAndReassign: per id in
order, fetch the user, check team membership, deactivate when active, and
collect the id; the first failure aborts, keeping the ids validated so far. -/
def validateUsers (teamName : String) :
    List String → DB → List String × Option SvcError × DB
  | [], db => ([], none, db)
  | uid :: rest, db =>
    match Repository.getUser db uid with
    | .error .userNotFound =>
      ([], some (.domain .NotFound ("user " ++ uid ++ " not found")), db)
    | .error e => ([], some (.store e), db)
    | .ok user =>
      if ¬ user.teamName = teamName then
        ([], some (.domain .NotFound
          ("user " ++ uid ++ " does not belong to team " ++ teamName)), db)
      else
        match (if user.isActive then
                 match Repository.setUserActive db uid false with
                 | (.error .userNotFound, db1) =>
                   (some (SvcError.domain .NotFound ("user " ++ uid ++ " not found")), db1)
                 | (.error e, db1) => (some (SvcError.store e), db1)
                 | (.ok _, db1) => (none, db1)
               else (none, db)) with
        | (some e, db1) => ([], some e, db1)
        | (none, db1) =>
          match validateUsers teamName rest db1 with
          | (ids, err, db2) => (uid :: ids, err, db2)

/-- Translation of Service.DeactivateTeamUsersAndReassign: empty input is a
no-op, otherwise the validation loop then the reassignment loops; the
affected figure is only filled in on full success (the Go code sets it after
the loops), and the counters accumulated so far are kept on abort. -/
def DeactivateTeamUsersAndReassign (r : Nat → Nat) (db : DB)
    (teamName : String) (userIDs : List String) :
    BulkDeactivateResult × Option SvcError × DB :=
  if userIDs.isEmpty then
    ({ teamName := teamName, deactivated := [], reassignedReviewers := 0,
       removedReviewers := 0, affectedPullRequests := 0 }, none, db)
  else
    match validateUsers teamName userIDs db with
    | (validated, some e, db1) =>
      ({ teamName := teamName, deactivated := validated, reassignedReviewers := 0,
         removedReviewers := 0, affectedPullRequests := 0 }, some e, db1)
    | (validated, none, db1) =>
      match processUsers r validated
          { db := db1, reassigned := 0, removed := 0, affected := [] } with
      | (some e, st) =>
        ({ teamName := teamName, deactivated := validated,
           reassignedReviewers := st.reassigned, removedReviewers := st.removed,
           affectedPullRequests := 0 }, some e, st.db)
      | (none, st) =>
        ({ teamName := teamName, deactivated := validated,
           reassignedReviewers := st.reassigned, removedReviewers := st.removed,
           affectedPullRequests := st.affected.length }, none, st.db)

end Service

/-! Helper lemmas shared by the claim theorems. -/

theorem mem_reviewersOf {db : DB} {prID x : String} :
    x ∈ reviewersOf db prID ↔ (prID, x) ∈ db.reviewers := by
  unfold reviewersOf
  simp only [List.mem_map, List.mem_filter, decide_eq_true_eq]
  constructor
  · rintro ⟨⟨p1, p2⟩, ⟨hb, hp⟩, hx⟩
    simp only at hp hx
    subst hp; subst hx; exact hb
  · intro h
    exact ⟨(prID, x), ⟨h, rfl⟩, rfl⟩

theorem findPR_some {db : DB} {prID : String} {row : PRRow}
    (h : findPR db prID = some row) : row ∈ db.prs ∧ row.id = prID := by
  refine ⟨List.mem_of_find?_eq_some h, ?_⟩
  have := List.find?_some h
  simpa using this

theorem getPR_ok {db : DB} {prID : String} {row : PRRow}
    (h : findPR db prID = some row) :
    Repository.getPR db prID = .ok
      { id := row.id, name := row.name, authorID := row.authorID,
        status := row.status,
        assignedReviewers := (reviewersOf db prID).insertionSort (· ≤ ·),
        createdAt := some row.createdAt, mergedAt := row.mergedAt } := by
  unfold Repository.getPR
  rw [h]

theorem mem_sort_reviewersOf {db : DB} {prID x : String} :
    x ∈ (reviewersOf db prID).insertionSort (· ≤ ·) ↔ (prID, x) ∈ db.reviewers := by
  rw [(List.perm_insertionSort (· ≤ ·) (reviewersOf db prID)).mem_iff]
  exact mem_reviewersOf

/-! C8: empty bulk deactivation is a no-op. -/

/-- C8: bulk deactivation called with an empty user-id list returns, for any
team name, the zero result (team name echoed, empty deactivated list, zero
counters), no error, and an unchanged store. -/
theorem deactivate_empty_noop (r : Nat → Nat) (db : DB) (teamName : String) :
    Service.DeactivateTeamUsersAndReassign r db teamName [] =
      ({ teamName := teamName, deactivated := [], reassignedReviewers := 0,
         removedReviewers := 0, affectedPullRequests := 0 }, none, db) := rfl

/-! C6: merging is idempotent. -/

/-- C6: merging a missing pull request fails with NotFound; merging an OPEN
pull request (merge timestamp still unset) succeeds, sets the status to
MERGED and the merge timestamp to now; merging an already merged pull
request succeeds and leaves the stored row, in particular its original merge
timestamp, unchanged. -/
theorem mergePR_idempotent (db : DB) (now : Nat) (prID : String) :
    (findPR db prID = none →
      Service.MergePR db now prID =
        (.error (.domain .NotFound "pull request not found"), db)) ∧
    (∀ row, findPR db prID = some row → row.status = statusOpen →
      row.mergedAt = none →
      ∃ pr db1, Service.MergePR db now prID = (.ok pr, db1) ∧
        pr.status = statusMerged ∧ pr.mergedAt = some now ∧
        findPR db1 prID =
          some { row with status := statusMerged, mergedAt := some now }) ∧
    (∀ row t, findPR db prID = some row → row.status = statusMerged →
      row.mergedAt = some t →
      ∃ pr db1, Service.MergePR db now prID = (.ok pr, db1) ∧
        pr.status = statusMerged ∧ pr.mergedAt = some t ∧
        findPR db1 prID = some row) := by
  refine ⟨?_, ?_, ?_⟩
  · intro h
    unfold Service.MergePR Repository.markPRMerged
    rw [h]
  · intro row h hopen hnone
    have hid : row.id = prID := (findPR_some h).2
    unfold Service.MergePR Repository.markPRMerged
    rw [h]
    refine ⟨_, _, rfl, rfl, by simp [hnone], ?_⟩
    unfold findPR
    rw [find?_map_pred _ _ ?_ db.prs]
    · show (findPR db prID).map _ = _
      rw [h]
      simp [hid, hnone]
    · intro p
      by_cases hp : p.id = prID <;> simp [hp]
  · intro row t h hmerged hsome
    have hid : row.id = prID := (findPR_some h).2
    unfold Service.MergePR Repository.markPRMerged
    rw [h]
    refine ⟨_, _, rfl, by simp [hmerged], by simp [hsome], ?_⟩
    unfold findPR
    rw [find?_map_pred _ _ ?_ db.prs]
    · show (findPR db prID).map _ = _
      rw [h]
      obtain ⟨id, name, authorID, status, createdAt, mergedAt⟩ := row
      simp only at hmerged hsome hid
      subst hid; subst hmerged; subst hsome
      simp
    · intro p
      by_cases hp : p.id = prID <;> simp [hp]

/-- A small concrete store: one team, one user, an OPEN and a MERGED pull
request, one reviewer binding. -/
def dbMerge : DB :=
  { teams := ["core"],
    users := [⟨"a", "A", "core", true⟩, ⟨"b", "B", "core", true⟩],
    prs := [⟨"p1", "one", "a", "OPEN", 1, none⟩,
            ⟨"p2", "two", "a", "MERGED", 2, some 3⟩],
    reviewers := [("p1", "b")] }

theorem mergePR_idempotent_witness :
    (∃ pr db1, Service.MergePR dbMerge 7 "p1" = (.ok pr, db1) ∧
      pr.status = statusMerged ∧ pr.mergedAt = some 7 ∧
      findPR db1 "p1" =
        some { id := "p1", name := "one", authorID := "a",
               status := statusMerged, createdAt := 1, mergedAt := some 7 }) ∧
    (∃ pr db1, Service.MergePR dbMerge 7 "p2" = (.ok pr, db1) ∧
      pr.status = statusMerged ∧ pr.mergedAt = some 3 ∧
      findPR db1 "p2" = some ⟨"p2", "two", "a", "MERGED", 2, some 3⟩) ∧
    Service.MergePR dbMerge 7 "zz" =
      (.error (.domain .NotFound "pull request not found"), dbMerge) :=
  ⟨(mergePR_idempotent dbMerge 7 "p1").2.1 ⟨"p1", "one", "a", "OPEN", 1, none⟩
      rfl rfl rfl,
   (mergePR_idempotent dbMerge 7 "p2").2.2 ⟨"p2", "two", "a", "MERGED", 2, some 3⟩
      3 rfl rfl rfl,
   (mergePR_idempotent dbMerge 7 "zz").1 rfl⟩

/-! C9: fetching the reviews of a user never fails. -/

/-- C9: GetUserReviews echoes the id and never returns an error; for a user
id with no user record (or plainly no reviewer binding) the list of pull
requests is empty. -/
theorem getUserReviews_spec (db : DB) (userID : String) (hwf : db.WF) :
    (Service.GetUserReviews db userID).1 = userID ∧
    (Service.GetUserReviews db userID).2.2 = none ∧
    (findUser db userID = none →
      Service.GetUserReviews db userID = (userID, [], none)) ∧
    ((∀ b ∈ db.reviewers, ¬ b.2 = userID) →
      Service.GetUserReviews db userID = (userID, [], none)) := by
  have key : ∀ (hnb : ∀ b ∈ db.reviewers, ¬ b.2 = userID),
      Repository.getPRsForReviewer db userID = [] := by
    intro hnb
    unfold Repository.getPRsForReviewer
    have hfil : db.prs.filter (fun p => decide ((p.id, userID) ∈ db.reviewers)) = [] := by
      rw [List.filter_eq_nil_iff]
      intro p hp
      simp only [decide_eq_true_eq]
      intro hmem
      exact hnb _ hmem rfl
    rw [hfil]
    rfl
  refine ⟨rfl, rfl, ?_, ?_⟩
  · intro hmissing
    have hnb : ∀ b ∈ db.reviewers, ¬ b.2 = userID := by
      intro b hb he
      obtain ⟨-, -, -, -, -, hfk⟩ := hwf
      obtain ⟨u, hu, hu2⟩ := List.mem_map.mp ((hfk b hb).2)
      exact findUser_none hmissing u hu (hu2.trans he)
    unfold Service.GetUserReviews
    rw [key hnb]
  · intro hnb
    unfold Service.GetUserReviews
    rw [key hnb]

theorem getUserReviews_witness :
    Service.GetUserReviews dbMerge "ghost" = ("ghost", [], none) :=
  (getUserReviews_spec dbMerge "ghost" (by decide)).2.2.1 rfl

/-! Reassignment guard helpers. -/

theorem getUser_ok {db : DB} {uid : String} {u : User}
    (h : findUser db uid = some u) : Repository.getUser db uid = .ok u := by
  unfold Repository.getUser
  rw [h]

theorem getUser_err {db : DB} {uid : String} (h : findUser db uid = none) :
    Repository.getUser db uid = .error .userNotFound := by
  unfold Repository.getUser
  rw [h]

theorem getPR_err {db : DB} {prID : String} (h : findPR db prID = none) :
    Repository.getPR db prID = .error .prNotFound := by
  unfold Repository.getPR
  rw [h]

theorem getActiveUsersByTeam_ok {db : DB} {teamName : String}
    (h : teamName ∈ db.teams) :
    Repository.getActiveUsersByTeam db teamName =
      .ok (db.users.filter (fun u => u.teamName = teamName ∧ u.isActive = true)) := by
  unfold Repository.getActiveUsersByTeam
  rw [if_pos h]

/-- The eligible replacement pool of a reassignment: active users of the
given team that are not the old reviewer, not the author, and not already
bound to the pull request. -/
def eligiblePool (db : DB) (prID teamName authorID oldUserID : String) :
    List String :=
  ((db.users.filter (fun u => u.teamName = teamName ∧ u.isActive = true)).filter
    (fun u => ¬ u.userID ∈ oldUserID :: authorID :: reviewersOf db prID)).map (·.userID)

theorem eligible_eq (db : DB) (prID teamName authorID oldUserID : String) :
    ((db.users.filter (fun u => u.teamName = teamName ∧ u.isActive = true)).filter
      (fun u => ¬ u.userID ∈ oldUserID :: authorID ::
          (reviewersOf db prID).insertionSort (· ≤ ·))).map (·.userID)
    = eligiblePool db prID teamName authorID oldUserID := by
  unfold eligiblePool
  congr 1
  apply List.filter_congr
  intro u hu
  have hiff : (u.userID ∈ oldUserID :: authorID ::
      (reviewersOf db prID).insertionSort (· ≤ ·)) ↔
      (u.userID ∈ oldUserID :: authorID :: reviewersOf db prID) := by
    simp [List.mem_cons, mem_sort_reviewersOf, mem_reviewersOf]
  exact decide_eq_decide.mpr (not_congr hiff)

/-! Forward run lemmas for the five reassignment failures and for the
success path; the claim theorems for C2 and C3 are assembled from these. -/

theorem reassign_run_prMissing (r : Nat → Nat) (db : DB) (prID oldUserID : String)
    (h : findPR db prID = none) :
    Service.ReassignReviewer r db prID oldUserID =
      (.error (.domain .NotFound "pull request not found"), db) := by
  unfold Service.ReassignReviewer
  rw [getPR_err h]

theorem reassign_run_merged (r : Nat → Nat) (db : DB) (prID oldUserID : String)
    {row : PRRow} (h : findPR db prID = some row) (hm : row.status = statusMerged) :
    Service.ReassignReviewer r db prID oldUserID =
      (.error (.domain .PRMerged "cannot reassign on merged PR"), db) := by
  unfold Service.ReassignReviewer
  simp only [getPR_ok h]
  rw [if_pos hm]

theorem reassign_run_userMissing (r : Nat → Nat) (db : DB) (prID oldUserID : String)
    {row : PRRow} (h : findPR db prID = some row) (hm : ¬ row.status = statusMerged)
    (hu : findUser db oldUserID = none) :
    Service.ReassignReviewer r db prID oldUserID =
      (.error (.domain .NotFound "user not found"), db) := by
  unfold Service.ReassignReviewer
  simp only [getPR_ok h]
  rw [if_neg hm]
  simp only [getUser_err hu]

theorem reassign_run_notAssigned (r : Nat → Nat) (db : DB) (prID oldUserID : String)
    {row : PRRow} {oldUser : User}
    (h : findPR db prID = some row) (hm : ¬ row.status = statusMerged)
    (hu : findUser db oldUserID = some oldUser)
    (hnot : ¬ (prID, oldUserID) ∈ db.reviewers) :
    Service.ReassignReviewer r db prID oldUserID =
      (.error (.domain .NotAssigned "reviewer is not assigned to this PR"), db) := by
  unfold Service.ReassignReviewer
  simp only [getPR_ok h]
  rw [if_neg hm]
  simp only [getUser_ok hu]
  rw [if_neg (fun hmem => hnot (mem_sort_reviewersOf.mp hmem))]

theorem reassign_run_noCandidate (r : Nat → Nat) (db : DB) (prID oldUserID : String)
    {row : PRRow} {oldUser : User}
    (h : findPR db prID = some row) (hm : ¬ row.status = statusMerged)
    (hu : findUser db oldUserID = some oldUser)
    (hmem : (prID, oldUserID) ∈ db.reviewers)
    (hteam : oldUser.teamName ∈ db.teams)
    (hpool : eligiblePool db prID oldUser.teamName row.authorID oldUserID = []) :
    Service.ReassignReviewer r db prID oldUserID =
      (.error (.domain .NoCandidate "no active replacement candidate in team"), db) := by
  unfold Service.ReassignReviewer
  simp only [getPR_ok h]
  rw [if_neg hm]
  simp only [getUser_ok hu]
  rw [if_pos (mem_sort_reviewersOf.mpr hmem)]
  simp only [getActiveUsersByTeam_ok hteam]
  simp only [eligible_eq db prID oldUser.teamName row.authorID oldUserID, hpool]
  rfl

/-- The store after the binding swap of Repository.ReassignReviewer. -/
def swapBinding (db : DB) (prID oldUserID newReviewer : String) : DB :=
  { db with reviewers := (db.reviewers.map
      (fun b => if b.1 = prID ∧ b.2 = oldUserID then (prID, newReviewer) else b)) }

theorem count_eq_one_of_mem_nodup {α : Type} [BEq α] [LawfulBEq α] {l : List α} {a : α}
    (hnd : l.Nodup) (h : a ∈ l) : l.count a = 1 := by
  induction l with
  | nil => cases h
  | cons b t ih =>
    rw [List.count_cons]
    rcases List.mem_cons.mp h with h1 | h1
    · subst h1
      have hnotin : a ∉ t := (List.nodup_cons.mp hnd).1
      rw [List.count_eq_zero.mpr hnotin]
      simp
    · have hbt : b ∉ t := (List.nodup_cons.mp hnd).1
      have hne : ¬ (b == a) = true := by
        intro hba
        exact hbt ((eq_of_beq hba) ▸ h1)
      rw [ih (List.nodup_cons.mp hnd).2 h1]
      simp [hne]

theorem headD_mem {l : List String} (h : ¬ l = []) (d : String) : l.headD d ∈ l := by
  cases l with
  | nil => exact absurd rfl h
  | cons a t => simp

theorem mem_eligiblePool {db : DB} {prID teamName authorID oldUserID x : String}
    (h : x ∈ eligiblePool db prID teamName authorID oldUserID) :
    ∃ u ∈ db.users, u.userID = x ∧ u.teamName = teamName ∧ u.isActive = true ∧
      ¬ x = oldUserID ∧ ¬ x = authorID ∧ ¬ (prID, x) ∈ db.reviewers := by
  unfold eligiblePool at h
  simp only [List.mem_map, List.mem_filter, decide_eq_true_eq, List.mem_cons,
    not_or, mem_reviewersOf] at h
  obtain ⟨u, ⟨⟨hu, ht, ha⟩, hn1, hn2, hn3⟩, hx⟩ := h
  subst hx
  exact ⟨u, hu, rfl, ht, ha, hn1, hn2, hn3⟩

theorem reassign_run_ok (r : Nat → Nat) (db : DB) (prID oldUserID : String)
    {row : PRRow} {oldUser : User}
    (h : findPR db prID = some row) (hm : ¬ row.status = statusMerged)
    (hu : findUser db oldUserID = some oldUser)
    (hmem : (prID, oldUserID) ∈ db.reviewers)
    (hteam : oldUser.teamName ∈ db.teams)
    (hpool : ¬ eligiblePool db prID oldUser.teamName row.authorID oldUserID = []) :
    Service.ReassignReviewer r db prID oldUserID =
      (.ok { pr := { id := row.id, name := row.name, authorID := row.authorID,
                     status := row.status,
                     assignedReviewers := (reviewersOf (swapBinding db prID oldUserID
                         ((shuffle r (eligiblePool db prID oldUser.teamName
                             row.authorID oldUserID)).headD "")) prID).insertionSort (· ≤ ·),
                     createdAt := some row.createdAt, mergedAt := row.mergedAt },
             replacedBy := (shuffle r (eligiblePool db prID oldUser.teamName
                 row.authorID oldUserID)).headD "" },
       swapBinding db prID oldUserID
         ((shuffle r (eligiblePool db prID oldUser.teamName row.authorID oldUserID)).headD "")) := by
  unfold Service.ReassignReviewer
  simp only [getPR_ok h]
  rw [if_neg hm]
  simp only [getUser_ok hu]
  rw [if_pos (mem_sort_reviewersOf.mpr hmem)]
  simp only [getActiveUsersByTeam_ok hteam]
  simp only [eligible_eq db prID oldUser.teamName row.authorID oldUserID]
  rw [if_neg (by simpa using hpool)]
  have hrun : Repository.reassignReviewer db prID oldUserID
      ((shuffle r (eligiblePool db prID oldUser.teamName row.authorID oldUserID)).headD "") =
      (.ok (), swapBinding db prID oldUserID
        ((shuffle r (eligiblePool db prID oldUser.teamName row.authorID oldUserID)).headD "")) := by
    unfold Repository.reassignReviewer swapBinding
    rw [if_pos]
    exact List.any_eq_true.mpr ⟨(prID, oldUserID), hmem, by simp⟩
  simp only [hrun]
  have h2 : findPR (swapBinding db prID oldUserID
      ((shuffle r (eligiblePool db prID oldUser.teamName row.authorID oldUserID)).headD ""))
      prID = some row := h
  simp only [getPR_ok h2]

/-! C3: the reassignment guard cascade. -/

/-- C3: the reassignment checks fire in order - missing pull request
(NotFound), merged pull request (PRMerged), missing old user (NotFound), old
user not an assigned reviewer (NotAssigned), empty eligible pool
(NoCandidate) - each with its own distinct failure, and every failure leaves
the store, in particular the reviewer relation, unchanged. -/
theorem reassign_failure_order (r : Nat → Nat) (db : DB) (prID oldUserID : String)
    (hwf : db.WF) :
    (findPR db prID = none →
      Service.ReassignReviewer r db prID oldUserID =
        (.error (.domain .NotFound "pull request not found"), db)) ∧
    (∀ row, findPR db prID = some row → row.status = statusMerged →
      Service.ReassignReviewer r db prID oldUserID =
        (.error (.domain .PRMerged "cannot reassign on merged PR"), db)) ∧
    (∀ row, findPR db prID = some row → ¬ row.status = statusMerged →
      findUser db oldUserID = none →
      Service.ReassignReviewer r db prID oldUserID =
        (.error (.domain .NotFound "user not found"), db)) ∧
    (∀ row oldUser, findPR db prID = some row → ¬ row.status = statusMerged →
      findUser db oldUserID = some oldUser →
      ¬ (prID, oldUserID) ∈ db.reviewers →
      Service.ReassignReviewer r db prID oldUserID =
        (.error (.domain .NotAssigned "reviewer is not assigned to this PR"), db)) ∧
    (∀ row oldUser, findPR db prID = some row → ¬ row.status = statusMerged →
      findUser db oldUserID = some oldUser →
      (prID, oldUserID) ∈ db.reviewers →
      eligiblePool db prID oldUser.teamName row.authorID oldUserID = [] →
      Service.ReassignReviewer r db prID oldUserID =
        (.error (.domain .NoCandidate "no active replacement candidate in team"), db)) := by
  refine ⟨fun h => reassign_run_prMissing r db prID oldUserID h,
    fun row h hm => reassign_run_merged r db prID oldUserID h hm,
    fun row h hm hu => reassign_run_userMissing r db prID oldUserID h hm hu,
    fun row oldUser h hm hu hnot =>
      reassign_run_notAssigned r db prID oldUserID h hm hu hnot,
    fun row oldUser h hm hu hmem hpool => ?_⟩
  have hteam : oldUser.teamName ∈ db.teams := by
    obtain ⟨-, -, -, -, hfk, -⟩ := hwf
    exact hfk oldUser (findUser_some hu).1
  exact reassign_run_noCandidate r db prID oldUserID h hm hu hmem hteam hpool

/-- A degenerate random source (always draws 0). -/
def r0 : Nat → Nat := fun _ => 0

/-- Store for the reassignment failure scenarios: author a, assigned
reviewer b, inactive c; one OPEN and one MERGED pull request. -/
def dbRe : DB :=
  { teams := ["core"],
    users := [⟨"a", "A", "core", true⟩, ⟨"b", "B", "core", true⟩,
              ⟨"c", "C", "core", false⟩],
    prs := [⟨"p1", "one", "a", "OPEN", 1, none⟩,
            ⟨"p2", "two", "a", "MERGED", 2, some 3⟩],
    reviewers := [("p1", "b")] }

theorem reassign_failure_order_witness :
    Service.ReassignReviewer r0 dbRe "zz" "b" =
      (.error (.domain .NotFound "pull request not found"), dbRe) ∧
    Service.ReassignReviewer r0 dbRe "p2" "b" =
      (.error (.domain .PRMerged "cannot reassign on merged PR"), dbRe) ∧
    Service.ReassignReviewer r0 dbRe "p1" "ghost" =
      (.error (.domain .NotFound "user not found"), dbRe) ∧
    Service.ReassignReviewer r0 dbRe "p1" "a" =
      (.error (.domain .NotAssigned "reviewer is not assigned to this PR"), dbRe) ∧
    Service.ReassignReviewer r0 dbRe "p1" "b" =
      (.error (.domain .NoCandidate "no active replacement candidate in team"), dbRe) :=
  ⟨(reassign_failure_order r0 dbRe "zz" "b" (by decide)).1 rfl,
   (reassign_failure_order r0 dbRe "p2" "b" (by decide)).2.1
     ⟨"p2", "two", "a", "MERGED", 2, some 3⟩ rfl rfl,
   (reassign_failure_order r0 dbRe "p1" "ghost" (by decide)).2.2.1
     ⟨"p1", "one", "a", "OPEN", 1, none⟩ rfl (by decide) rfl,
   (reassign_failure_order r0 dbRe "p1" "a" (by decide)).2.2.2.1
     ⟨"p1", "one", "a", "OPEN", 1, none⟩ ⟨"a", "A", "core", true⟩
     rfl (by decide) rfl (by decide),
   (reassign_failure_order r0 dbRe "p1" "b" (by decide)).2.2.2.2
     ⟨"p1", "one", "a", "OPEN", 1, none⟩ ⟨"b", "B", "core", true⟩
     rfl (by decide) rfl (by decide) rfl⟩

/-! C2: successful single reassignment. -/

/-- C2: a successful reassignment on an OPEN pull request replaces exactly
the requested binding row, leaves every other binding unchanged, and the new
reviewer is an active user of the team of the old reviewer, distinct from
the old reviewer, the author, and every already assigned reviewer; the
binding update touches exactly one row, and an update that matches no row
fails with the invariant error. -/
theorem reassign_success_spec (r : Nat → Nat) (db : DB) (prID oldUserID : String)
    (rr : Service.ReassignResult) (db2 : DB) (hwf : db.WF)
    (h : Service.ReassignReviewer r db prID oldUserID = (.ok rr, db2)) :
    (∃ row oldUser,
      findPR db prID = some row ∧ ¬ row.status = statusMerged ∧
      findUser db oldUserID = some oldUser ∧
      (∃ u ∈ db.users, u.userID = rr.replacedBy ∧ u.isActive = true ∧
        u.teamName = oldUser.teamName) ∧
      ¬ rr.replacedBy = oldUserID ∧
      ¬ rr.replacedBy = row.authorID ∧
      ¬ (prID, rr.replacedBy) ∈ db.reviewers ∧
      List.count (prID, oldUserID) db.reviewers = 1 ∧
      db2.reviewers = db.reviewers.map
        (fun b => if b.1 = prID ∧ b.2 = oldUserID then (prID, rr.replacedBy) else b) ∧
      ¬ (prID, oldUserID) ∈ db2.reviewers ∧
      (prID, rr.replacedBy) ∈ db2.reviewers ∧
      (∀ b ∈ db.reviewers, ¬ b = (prID, oldUserID) → b ∈ db2.reviewers) ∧
      db2.reviewers.length = db.reviewers.length) ∧
    (∀ (db0 : DB) (p o n : String), ¬ (p, o) ∈ db0.reviewers →
      Repository.reassignReviewer db0 p o n =
        (.error (.other "no reviewer row updated"), db0)) := by
  have hzero : ∀ (db0 : DB) (p o n : String), ¬ (p, o) ∈ db0.reviewers →
      Repository.reassignReviewer db0 p o n =
        (.error (.other "no reviewer row updated"), db0) := by
    intro db0 p o n hno
    unfold Repository.reassignReviewer
    rw [if_neg]
    intro hany
    obtain ⟨b, hb, hcond⟩ := List.any_eq_true.mp hany
    simp only [decide_eq_true_eq] at hcond
    apply hno
    obtain ⟨b1, b2⟩ := b
    simp only at hcond
    rw [← hcond.1, ← hcond.2]
    exact hb
  refine ⟨?_, hzero⟩
  cases hf : findPR db prID with
  | none =>
    rw [reassign_run_prMissing r db prID oldUserID hf] at h
    simp at h
  | some row =>
    by_cases hm : row.status = statusMerged
    · rw [reassign_run_merged r db prID oldUserID hf hm] at h
      simp at h
    · cases huf : findUser db oldUserID with
      | none =>
        rw [reassign_run_userMissing r db prID oldUserID hf hm huf] at h
        simp at h
      | some oldUser =>
        by_cases hass : (prID, oldUserID) ∈ db.reviewers
        · have hteam : oldUser.teamName ∈ db.teams := by
            obtain ⟨-, -, -, -, hfk, -⟩ := hwf
            exact hfk oldUser (findUser_some huf).1
          by_cases hpool :
              eligiblePool db prID oldUser.teamName row.authorID oldUserID = []
          · rw [reassign_run_noCandidate r db prID oldUserID hf hm huf hass hteam hpool] at h
            simp at h
          · rw [reassign_run_ok r db prID oldUserID hf hm huf hass hteam hpool] at h
            simp only [Prod.mk.injEq, Except.ok.injEq] at h
            obtain ⟨hrr, hdb2⟩ := h
            subst hrr
            subst hdb2
            have hne : ¬ shuffle r
                (eligiblePool db prID oldUser.teamName row.authorID oldUserID) = [] := by
              intro he
              apply hpool
              have hlen :=
                (shuffle_perm r (eligiblePool db prID oldUser.teamName row.authorID oldUserID)).length_eq
              rw [he] at hlen
              exact List.length_eq_zero.mp hlen.symm
            have hnrPool : (shuffle r (eligiblePool db prID oldUser.teamName
                row.authorID oldUserID)).headD "" ∈
                eligiblePool db prID oldUser.teamName row.authorID oldUserID :=
              (shuffle_perm r _).mem_iff.mp (headD_mem hne "")
            obtain ⟨u, hu, huid, hut, hua, hne1, hne2, hne3⟩ := mem_eligiblePool hnrPool
            refine ⟨row, oldUser, rfl, hm, rfl, ⟨u, hu, huid, hua, hut⟩,
              hne1, hne2, hne3, ?_, rfl, ?_, ?_, ?_, List.length_map _ _⟩
            · obtain ⟨-, -, -, hnd, -, -⟩ := hwf
              exact count_eq_one_of_mem_nodup hnd hass
            · intro hmem2
              obtain ⟨b, hb, hfb⟩ := List.mem_map.mp hmem2
              by_cases hc : b.1 = prID ∧ b.2 = oldUserID
              · rw [if_pos hc] at hfb
                have : (shuffle r (eligiblePool db prID oldUser.teamName
                    row.authorID oldUserID)).headD "" = oldUserID := by
                  have := congrArg Prod.snd hfb
                  simpa using this
                exact hne1 this
              · rw [if_neg hc] at hfb
                apply hc
                rw [hfb]
                exact ⟨rfl, rfl⟩
            · refine List.mem_map.mpr ⟨(prID, oldUserID), hass, ?_⟩
              rw [if_pos ⟨rfl, rfl⟩]
            · intro b hb hbne
              refine List.mem_map.mpr ⟨b, hb, ?_⟩
              rw [if_neg]
              intro hc
              apply hbne
              obtain ⟨b1, b2⟩ := b
              simp only at hc
              rw [hc.1, hc.2]
        · rw [reassign_run_notAssigned r db prID oldUserID hf hm huf hass] at h
          simp at h

/-- Store for the successful reassignment scenario: author a, assigned
reviewer b, free active candidate c. -/
def dbC2 : DB :=
  { teams := ["core"],
    users := [⟨"a", "A", "core", true⟩, ⟨"b", "B", "core", true⟩,
              ⟨"c", "C", "core", true⟩],
    prs := [⟨"p1", "one", "a", "OPEN", 1, none⟩],
    reviewers := [("p1", "b")] }

/-- The store after reassigning b to c on p1. -/
def dbC2' : DB :=
  { teams := ["core"],
    users := [⟨"a", "A", "core", true⟩, ⟨"b", "B", "core", true⟩,
              ⟨"c", "C", "core", true⟩],
    prs := [⟨"p1", "one", "a", "OPEN", 1, none⟩],
    reviewers := [("p1", "c")] }

/-- The reassignment result produced on dbC2. -/
def rrC2 : Service.ReassignResult :=
  { pr := { id := "p1", name := "one", authorID := "a", status := "OPEN",
            assignedReviewers := ["c"], createdAt := some 1, mergedAt := none },
    replacedBy := "c" }

theorem reassign_success_spec_witness :
    (∃ row oldUser,
      findPR dbC2 "p1" = some row ∧ ¬ row.status = statusMerged ∧
      findUser dbC2 "b" = some oldUser ∧
      (∃ u ∈ dbC2.users, u.userID = rrC2.replacedBy ∧ u.isActive = true ∧
        u.teamName = oldUser.teamName) ∧
      ¬ rrC2.replacedBy = "b" ∧
      ¬ rrC2.replacedBy = row.authorID ∧
      ¬ ("p1", rrC2.replacedBy) ∈ dbC2.reviewers ∧
      List.count ("p1", "b") dbC2.reviewers = 1 ∧
      dbC2'.reviewers = dbC2.reviewers.map
        (fun b => if b.1 = "p1" ∧ b.2 = "b" then ("p1", rrC2.replacedBy) else b) ∧
      ¬ ("p1", "b") ∈ dbC2'.reviewers ∧
      ("p1", rrC2.replacedBy) ∈ dbC2'.reviewers ∧
      (∀ b ∈ dbC2.reviewers, ¬ b = ("p1", "b") → b ∈ dbC2'.reviewers) ∧
      dbC2'.reviewers.length = dbC2.reviewers.length) ∧
    (∀ (db0 : DB) (p o n : String), ¬ (p, o) ∈ db0.reviewers →
      Repository.reassignReviewer db0 p o n =
        (.error (.other "no reviewer row updated"), db0)) :=
  reassign_success_spec r0 dbC2 "p1" "b" rrC2 dbC2' (by decide) rfl

/-! C1: reviewer selection at pull request creation. -/

theorem reviewersOf_create {db : DB} {i : String} {l : List String} {row : PRRow}
    (hold : ∀ b ∈ db.reviewers, ¬ b.1 = i) :
    reviewersOf
      { db with
        prs := db.prs ++ [row],
        reviewers := db.reviewers ++ l.map (fun rid => (i, rid)) } i = l := by
  unfold reviewersOf
  simp only [List.filter_append]
  have h1 : db.reviewers.filter (fun b => decide (b.1 = i)) = [] := by
    rw [List.filter_eq_nil_iff]
    intro b hb
    simpa using hold b hb
  have h2 : (l.map (fun rid => (i, rid))).filter (fun b => decide (b.1 = i)) =
      l.map (fun rid => (i, rid)) := by
    rw [List.filter_eq_self]
    intro b hb
    obtain ⟨rid, -, hrid⟩ := List.mem_map.mp hb
    subst hrid
    simp
  rw [h1, h2]
  simp [List.map_map, Function.comp]

theorem find?_append_cons_self {l : List PRRow} {row : PRRow} {i : String}
    (h : ∀ p ∈ l, ¬ p.id = i) (hrow : row.id = i) :
    (l ++ [row]).find? (fun p => decide (p.id = i)) = some row := by
  rw [List.find?_append]
  have h1 : l.find? (fun p => decide (p.id = i)) = none := by
    rw [List.find?_eq_none]
    intro p hp
    simpa using h p hp
  rw [h1]
  simp [hrow]

theorem createPRWithReviewers_run {db : DB} {now : Nat} (pr : PullRequest)
    (hfresh : ∀ p ∈ db.prs, ¬ p.id = pr.id) :
    Repository.createPRWithReviewers db now pr =
      (.ok (),
       { db with
         prs := db.prs ++ [{ id := pr.id, name := pr.name, authorID := pr.authorID,
                             status := pr.status, createdAt := now, mergedAt := none }],
         reviewers := db.reviewers ++ pr.assignedReviewers.map (fun rid => (pr.id, rid)) }) := by
  unfold Repository.createPRWithReviewers
  rw [if_neg]
  intro hany
  obtain ⟨p, hp, hc⟩ := List.any_eq_true.mp hany
  exact hfresh p hp (by simpa using hc)

theorem finishCreatePR_run (now : Nat) (db : DB) (inp : Service.CreatePRInput)
    (chosen : List String)
    (hPRnone : ∀ p ∈ db.prs, ¬ p.id = inp.id)
    (holdRev : ∀ b ∈ db.reviewers, ¬ b.1 = inp.id) :
    Service.finishCreatePR now db inp chosen =
      (.ok { id := inp.id, name := inp.name, authorID := inp.authorID,
             status := statusOpen,
             assignedReviewers := chosen.insertionSort (· ≤ ·),
             createdAt := some now, mergedAt := none },
       { db with
         prs := db.prs ++ [⟨inp.id, inp.name, inp.authorID, statusOpen, now, none⟩],
         reviewers := db.reviewers ++ chosen.map (fun rid => (inp.id, rid)) }) := by
  unfold Service.finishCreatePR
  simp only [createPRWithReviewers_run
    { id := inp.id, name := inp.name, authorID := inp.authorID,
      status := statusOpen, assignedReviewers := chosen,
      createdAt := none, mergedAt := none } hPRnone]
  have hfind : findPR
      { db with
        prs := db.prs ++ [(⟨inp.id, inp.name, inp.authorID, statusOpen, now, none⟩ : PRRow)],
        reviewers := db.reviewers ++ chosen.map (fun rid => (inp.id, rid)) } inp.id =
      some ⟨inp.id, inp.name, inp.authorID, statusOpen, now, none⟩ :=
    find?_append_cons_self hPRnone rfl
  simp only [getPR_ok hfind]
  rw [reviewersOf_create holdRev]

theorem pickReviewers_length (r : Nat → Nat) (author : User) (candidates : List User) :
    (Service.pickReviewers r author candidates).length =
      min ((candidates.filter (fun u => ¬ u.userID = author.userID)).length) 2 := by
  unfold Service.pickReviewers
  have hlen : (shuffle r ((candidates.filter
      (fun u => ¬ u.userID = author.userID)).map (·.userID))).length =
      (candidates.filter (fun u => ¬ u.userID = author.userID)).length := by
    rw [(shuffle_perm r _).length_eq, List.length_map]
  dsimp only
  split
  · next hgt =>
    rw [List.length_take, hlen]
    rw [hlen] at hgt
    omega
  · next hle =>
    rw [hlen]
    rw [hlen] at hle
    omega

theorem pickReviewers_nodup (r : Nat → Nat) (author : User) (candidates : List User)
    (hnd : (candidates.map (·.userID)).Nodup) :
    (Service.pickReviewers r author candidates).Nodup := by
  unfold Service.pickReviewers
  have h0 : ((candidates.filter (fun u => ¬ u.userID = author.userID)).map (·.userID)).Nodup :=
    hnd.sublist ((List.filter_sublist candidates).map (·.userID))
  have h1 : (shuffle r ((candidates.filter
      (fun u => ¬ u.userID = author.userID)).map (·.userID))).Nodup :=
    h0.perm (shuffle_perm r _).symm
  dsimp only
  split
  · exact h1.sublist (List.take_sublist _ _)
  · exact h1

theorem pickReviewers_mem (r : Nat → Nat) (author : User) (candidates : List User)
    {x : String} (h : x ∈ Service.pickReviewers r author candidates) :
    ∃ u ∈ candidates, u.userID = x ∧ ¬ x = author.userID := by
  unfold Service.pickReviewers at h
  dsimp only at h
  have hx : x ∈ (candidates.filter (fun u => ¬ u.userID = author.userID)).map (·.userID) := by
    refine (shuffle_perm r _).mem_iff.mp ?_
    revert h
    split
    · intro h
      exact (List.take_sublist _ _).mem h
    · intro h
      exact h
  obtain ⟨u, hu, hux⟩ := List.mem_map.mp hx
  obtain ⟨hu2, hu3⟩ := List.mem_filter.mp hu
  refine ⟨u, hu2, hux, ?_⟩
  rw [← hux]
  simpa using hu3

/-- The number of active users of the team of the author other than the
author. -/
def otherActiveCount (db : DB) (author : User) : Nat :=
  ((db.users.filter (fun u => u.teamName = author.teamName ∧ u.isActive = true)).filter
    (fun u => ¬ u.userID = author.userID)).length

/-- C1: creating a pull request for a missing author fails with NotFound;
for an existing author whose team has N other active members (and a fresh
pull request id) the stored pull request carries exactly min(N, 2) assigned
reviewers, pairwise distinct, none of them the author, each an active user
of the team of the author. -/
theorem createPR_spec (r : Nat → Nat) (now : Nat) (db : DB)
    (inp : Service.CreatePRInput) (hwf : db.WF) :
    (findUser db inp.authorID = none →
      Service.CreatePR r now db inp =
        (.error (.domain .NotFound "author not found"), db)) ∧
    (∀ author, findUser db inp.authorID = some author →
      findPR db inp.id = none →
      ∃ pr db1, Service.CreatePR r now db inp = (.ok pr, db1) ∧
        pr.assignedReviewers.length = min (otherActiveCount db author) 2 ∧
        pr.assignedReviewers.Nodup ∧
        ¬ inp.authorID ∈ pr.assignedReviewers ∧
        (∀ x ∈ pr.assignedReviewers, ∃ u ∈ db.users,
          u.userID = x ∧ u.isActive = true ∧ u.teamName = author.teamName) ∧
        pr.id = inp.id ∧ pr.authorID = inp.authorID ∧ pr.status = statusOpen) := by
  constructor
  · intro h
    unfold Service.CreatePR
    rw [getUser_err h]
  · intro author hA hfresh
    have hANames := findUser_some hA
    have hteam : author.teamName ∈ db.teams := by
      obtain ⟨-, -, -, -, hfk, -⟩ := hwf
      exact hfk author hANames.1
    have hPRnone : ∀ p ∈ db.prs, ¬ p.id = inp.id := by
      intro p hp
      have := List.find?_eq_none.mp hfresh p hp
      simpa using this
    have holdRev : ∀ b ∈ db.reviewers, ¬ b.1 = inp.id := by
      intro b hb he
      obtain ⟨-, -, -, -, -, hfk2⟩ := hwf
      obtain ⟨p, hp, hpid⟩ := List.mem_map.mp (hfk2 b hb).1
      exact hPRnone p hp (by rw [hpid, he])
    unfold Service.CreatePR
    simp only [getUser_ok hA, getActiveUsersByTeam_ok hteam]
    rw [finishCreatePR_run now db inp _ hPRnone holdRev]
    refine ⟨_, _, rfl, ?_, ?_, ?_, ?_, rfl, rfl, rfl⟩
    · show (List.insertionSort _ _).length = _
      rw [(List.perm_insertionSort _ _).length_eq, pickReviewers_length]
      rfl
    · show (List.insertionSort _ _).Nodup
      refine List.Nodup.perm ?_ (List.perm_insertionSort _ _).symm
      apply pickReviewers_nodup
      obtain ⟨-, hndu, -, -, -, -⟩ := hwf
      exact hndu.sublist ((List.filter_sublist db.users).map (·.userID))
    · show ¬ inp.authorID ∈ List.insertionSort _ _
      intro hmem
      have hmem2 := (List.perm_insertionSort _ _).mem_iff.mp hmem
      obtain ⟨u, hu, hux, hne⟩ := pickReviewers_mem r author _ hmem2
      exact hne (hANames.2.symm)
    · intro x hx
      have hmem2 := (List.perm_insertionSort _ _).mem_iff.mp hx
      obtain ⟨u, hu, hux, -⟩ := pickReviewers_mem r author _ hmem2
      obtain ⟨hu2, hu3⟩ := List.mem_filter.mp hu
      have hu4 : u.teamName = author.teamName ∧ u.isActive = true := by
        simpa using hu3
      exact ⟨u, hu2, hux, hu4.2, hu4.1⟩

theorem createPR_spec_witness :
    Service.CreatePR r0 7 dbC2 ⟨"p9", "nine", "ghost"⟩ =
      (.error (.domain .NotFound "author not found"), dbC2) ∧
    (∃ pr db1, Service.CreatePR r0 7 dbC2 ⟨"p9", "nine", "a"⟩ = (.ok pr, db1) ∧
      pr.assignedReviewers.length =
        min (otherActiveCount dbC2 ⟨"a", "A", "core", true⟩) 2 ∧
      pr.assignedReviewers.Nodup ∧
      ¬ "a" ∈ pr.assignedReviewers ∧
      (∀ x ∈ pr.assignedReviewers, ∃ u ∈ dbC2.users,
        u.userID = x ∧ u.isActive = true ∧
        u.teamName = (⟨"a", "A", "core", true⟩ : User).teamName) ∧
      pr.id = "p9" ∧ pr.authorID = "a" ∧ pr.status = statusOpen) :=
  ⟨(createPR_spec r0 7 dbC2 ⟨"p9", "nine", "ghost"⟩ (by decide)).1 rfl,
   (createPR_spec r0 7 dbC2 ⟨"p9", "nine", "a"⟩ (by decide)).2
     ⟨"a", "A", "core", true⟩ rfl rfl⟩

/-! C7: team creation with member upsert. -/

theorem getTeam_ok (db : DB) {teamName : String} (h : teamName ∈ db.teams) :
    Repository.getTeam db teamName = .ok
      { teamName := teamName,
        members := ((db.users.filter (fun u => u.teamName = teamName)).insertionSort
            (fun a b => a.userID ≤ b.userID)).map
            (fun u => { userID := u.userID, username := u.username,
                        isActive := u.isActive }) } := by
  unfold Repository.getTeam
  rw [if_pos h]

theorem upsert_find_self (us : List User) (t : String) (m : TeamMember) :
    (Repository.upsertMember us t m).find? (fun u => u.userID = m.userID) =
      some ⟨m.userID, m.username, t, m.isActive⟩ := by
  unfold Repository.upsertMember
  split
  · next hany =>
    induction us with
    | nil => simp at hany
    | cons a rest ih =>
      simp only [List.map_cons]
      by_cases ha : a.userID = m.userID
      · rw [if_pos ha]
        rw [List.find?_cons_of_pos _ (by simp)]
      · rw [if_neg ha]
        rw [List.find?_cons_of_neg _ (by simpa using ha)]
        apply ih
        simp only [List.any_cons, Bool.or_eq_true] at hany
        rcases hany with h1 | h1
        · exact absurd (by simpa using h1) ha
        · exact h1
  · next hany =>
    rw [List.find?_append]
    have h1 : us.find? (fun u => decide (u.userID = m.userID)) = none := by
      rw [List.find?_eq_none]
      intro u hu
      simp only [decide_eq_true_eq]
      intro he
      exact hany (List.any_eq_true.mpr ⟨u, hu, by simpa using he⟩)
    rw [h1]
    simp

theorem upsert_find_other (us : List User) (t : String) (m : TeamMember)
    (x : String) (hx : ¬ x = m.userID) :
    (Repository.upsertMember us t m).find? (fun u => u.userID = x) =
      us.find? (fun u => u.userID = x) := by
  have hmx : ¬ m.userID = x := fun h => hx h.symm
  unfold Repository.upsertMember
  split
  · rw [find?_map_pred]
    · cases hfind : us.find? (fun u => decide (u.userID = x)) with
      | none => rfl
      | some u =>
        have hux : u.userID = x := by simpa using List.find?_some hfind
        rw [Option.map_some']
        rw [if_neg]
        intro he
        apply hx
        rw [← hux]
        exact he
    · intro a
      by_cases ha : a.userID = m.userID
      · rw [if_pos ha]
        simp only [decide_eq_true_eq]
        apply decide_eq_decide.mpr
        constructor
        · intro h1
          exact absurd h1.symm hx
        · intro h1
          exact absurd (ha.symm.trans h1) hmx
      · rw [if_neg ha]
  · rw [List.find?_append]
    have h2 : ([(⟨m.userID, m.username, t, m.isActive⟩ : User)]).find?
        (fun u => decide (u.userID = x)) = none := by
      simp [hmx]
    rw [h2]
    simp

theorem fold_upsert_find_other (members : List TeamMember) (us : List User)
    (t : String) (x : String) (h : ∀ m ∈ members, ¬ x = m.userID) :
    (members.foldl (fun acc m => Repository.upsertMember acc t m) us).find?
        (fun u => u.userID = x) = us.find? (fun u => u.userID = x) := by
  induction members generalizing us with
  | nil => rfl
  | cons a rest ih =>
    simp only [List.foldl_cons]
    rw [ih _ (fun m hm => h m (List.mem_cons_of_mem a hm))]
    exact upsert_find_other us t a x (h a (List.mem_cons_self a rest))

theorem fold_upsert_find_self (members : List TeamMember) (us : List User)
    (t : String) (hnd : (members.map (·.userID)).Nodup) (m : TeamMember)
    (hm : m ∈ members) :
    (members.foldl (fun acc m => Repository.upsertMember acc t m) us).find?
        (fun u => u.userID = m.userID) =
      some ⟨m.userID, m.username, t, m.isActive⟩ := by
  revert hnd hm
  induction members generalizing us with
  | nil =>
    intro hnd hm
    cases hm
  | cons a rest ih =>
    intro hnd hm
    have hnd2 : (a.userID :: rest.map (·.userID)).Nodup := by simpa using hnd
    simp only [List.foldl_cons]
    rcases List.mem_cons.mp hm with h1 | h1
    · subst h1
      have hnotin : ∀ m' ∈ rest, ¬ m.userID = m'.userID := by
        intro m' hm' he
        exact (List.nodup_cons.mp hnd2).1 (he ▸ List.mem_map.mpr ⟨m', hm', rfl⟩)
      rw [fold_upsert_find_other rest _ t m.userID hnotin]
      exact upsert_find_self us t m
    · exact ih _ (by simpa using (List.nodup_cons.mp hnd2).2) h1

/-- C7: creating a team whose name is taken fails with TeamExists and leaves
the store unchanged; otherwise the team is inserted and every listed member
is upserted - a member id existing before has display name, active flag and
team reference overwritten (relocated to the new team) - while users not in
the member list, and the pull request and reviewer tables, are untouched. -/
theorem addTeam_spec (db : DB) (team : Team)
    (hnd : (team.members.map (·.userID)).Nodup) :
    (team.teamName ∈ db.teams →
      Service.AddTeam db team =
        (.error (.domain .TeamExists "team_name already exists"), db)) ∧
    (¬ team.teamName ∈ db.teams →
      ∃ t db1, Service.AddTeam db team = (.ok t, db1) ∧
        db1.teams = db.teams ++ [team.teamName] ∧
        (∀ m ∈ team.members, findUser db1 m.userID =
          some ⟨m.userID, m.username, team.teamName, m.isActive⟩) ∧
        (∀ x, (∀ m ∈ team.members, ¬ x = m.userID) →
          findUser db1 x = findUser db x) ∧
        db1.prs = db.prs ∧ db1.reviewers = db.reviewers) := by
  constructor
  · intro h
    unfold Service.AddTeam Repository.createTeam
    rw [if_pos h]
  · intro hnot
    unfold Service.AddTeam Repository.createTeam
    rw [if_neg hnot]
    have hmem : team.teamName ∈ db.teams ++ [team.teamName] := by simp
    simp only [getTeam_ok
      { db with
        teams := db.teams ++ [team.teamName],
        users := (team.members.foldl
          (fun us m => Repository.upsertMember us team.teamName m) db.users) } hmem]
    refine ⟨_, _, rfl, rfl, ?_, ?_, rfl, rfl⟩
    · intro m hm
      exact fold_upsert_find_self team.members db.users team.teamName hnd m hm
    · intro x hx
      exact fold_upsert_find_other team.members db.users team.teamName x hx

/-- Store with one team and one user, for the relocation scenario. -/
def dbT7 : DB :=
  { teams := ["old"], users := [⟨"u1", "U1", "old", true⟩],
    prs := [], reviewers := [] }

/-- New team whose member list relocates u1 and introduces u2. -/
def teamRelocate : Team :=
  { teamName := "t1",
    members := [⟨"u1", "U1new", true⟩, ⟨"u2", "U2", false⟩] }

/-- Team creation request clashing with the existing name. -/
def teamClash : Team := { teamName := "old", members := [] }

theorem addTeam_spec_witness :
    Service.AddTeam dbT7 teamClash =
      (.error (.domain .TeamExists "team_name already exists"), dbT7) ∧
    (∃ t db1, Service.AddTeam dbT7 teamRelocate = (.ok t, db1) ∧
      db1.teams = dbT7.teams ++ ["t1"] ∧
      (∀ m ∈ teamRelocate.members, findUser db1 m.userID =
        some ⟨m.userID, m.username, "t1", m.isActive⟩) ∧
      (∀ x, (∀ m ∈ teamRelocate.members, ¬ x = m.userID) →
        findUser db1 x = findUser dbT7 x) ∧
      db1.prs = dbT7.prs ∧ db1.reviewers = dbT7.reviewers) :=
  ⟨(addTeam_spec dbT7 teamClash (by decide)).1 (by decide),
   (addTeam_spec dbT7 teamRelocate (by decide)).2 (by decide)⟩

/-! C5 and C10: the bulk validation loop. -/

/-- The effect of the validation loop on the users table: the processed ids
are switched to inactive, everything else is untouched. -/
def deactivateIn (ids : List String) (u : User) : User :=
  if u.userID ∈ ids then { u with isActive := false } else u

/-- The per-id validation condition of the bulk operation: the user exists
and belongs to the requested team. -/
def validMember (db : DB) (teamName uid : String) : Prop :=
  ∃ u, findUser db uid = some u ∧ u.teamName = teamName

theorem deactivateIn_userID (ids : List String) (u : User) :
    (deactivateIn ids u).userID = u.userID := by
  unfold deactivateIn
  split <;> rfl

theorem deactivateIn_teamName (ids : List String) (u : User) :
    (deactivateIn ids u).teamName = u.teamName := by
  unfold deactivateIn
  split <;> rfl

theorem deactivateIn_nil (u : User) : deactivateIn [] u = u := by
  unfold deactivateIn
  simp

theorem findUser_map {db : DB} (f : User → User)
    (hid : ∀ u, (f u).userID = u.userID) (x : String) :
    findUser { db with users := db.users.map f } x =
      (findUser db x).map f := by
  unfold findUser
  exact find?_map_pred f _ (fun a => by simp [hid a]) db.users

theorem validMember_map_iff (db : DB) (f : User → User)
    (hid : ∀ u, (f u).userID = u.userID)
    (ht : ∀ u, (f u).teamName = u.teamName) (teamName uid : String) :
    validMember { db with users := db.users.map f } teamName uid ↔
      validMember db teamName uid := by
  unfold validMember
  rw [findUser_map f hid]
  cases h : findUser db uid with
  | none => simp
  | some u => simp [ht u]

theorem eq_of_nodup_key {users : List User}
    (hnd : (users.map (·.userID)).Nodup) {u v : User}
    (hu : u ∈ users) (hv : v ∈ users) (he : u.userID = v.userID) : u = v := by
  induction users with
  | nil => cases hu
  | cons a rest ih =>
    have hnd2 : (a.userID :: rest.map (·.userID)).Nodup := by simpa using hnd
    rcases List.mem_cons.mp hu with h1 | h1 <;> rcases List.mem_cons.mp hv with h2 | h2
    · rw [h1, h2]
    · subst h1
      exact absurd (he ▸ List.mem_map.mpr ⟨v, h2, rfl⟩)
        (List.nodup_cons.mp hnd2).1
    · subst h2
      exact absurd (he ▸ List.mem_map.mpr ⟨u, h1, rfl⟩ : v.userID ∈ rest.map (·.userID))
        (List.nodup_cons.mp hnd2).1
    · exact ih (List.nodup_cons.mp hnd2).2 h1 h2

theorem map_userID_map (users : List User) (f : User → User)
    (hid : ∀ u, (f u).userID = u.userID) :
    (users.map f).map (·.userID) = users.map (·.userID) := by
  rw [List.map_map]
  exact List.map_congr_left (fun u hu => hid u)

theorem set_inactive_self {u : User} (h : u.isActive = false) :
    ({ u with isActive := false } : User) = u := by
  cases u
  simp_all

theorem deactivate_step (uid : String) (rest : List String) (u : User) :
    deactivateIn rest (if u.userID = uid then { u with isActive := false } else u) =
      deactivateIn (uid :: rest) u := by
  unfold deactivateIn
  by_cases h1 : u.userID = uid
  · rw [if_pos h1]
    by_cases h2 : u.userID ∈ rest
    · rw [if_pos (by simpa using h2), if_pos (by simp [h1])]
    · rw [if_neg (by simpa using h2), if_pos (by simp [h1])]
  · rw [if_neg h1]
    by_cases h2 : u.userID ∈ rest
    · rw [if_pos h2, if_pos (List.mem_cons_of_mem _ h2)]
    · rw [if_neg h2, if_neg (by simp [h1, h2])]

theorem map_deactivateIn_nil (users : List User) :
    users.map (deactivateIn []) = users := by
  have h : deactivateIn [] = id := funext deactivateIn_nil
  rw [h, List.map_id]

theorem deactivate_cons_of_active (db : DB) (uid : String) (rest : List String) :
    (db.users.map (fun v => if v.userID = uid then { v with isActive := false } else v)).map
      (deactivateIn rest) = db.users.map (deactivateIn (uid :: rest)) := by
  rw [List.map_map]
  exact List.map_congr_left (fun u _ => deactivate_step uid rest u)

theorem deactivate_cons_of_inactive {db : DB} {uid : String} {u : User}
    (rest : List String) (hnd : (db.users.map (·.userID)).Nodup)
    (hu : findUser db uid = some u) (hact : u.isActive = false) :
    db.users.map (deactivateIn rest) = db.users.map (deactivateIn (uid :: rest)) := by
  apply List.map_congr_left
  intro v hv
  by_cases hvid : v.userID = uid
  · have hveq : v = u := eq_of_nodup_key hnd hv (findUser_some hu).1
      (by rw [hvid, (findUser_some hu).2])
    subst hveq
    unfold deactivateIn
    by_cases hmr : v.userID ∈ rest
    · rw [if_pos hmr, if_pos (List.mem_cons_of_mem _ hmr)]
    · rw [if_neg hmr, if_pos (by simp [hvid]), set_inactive_self hact]
  · unfold deactivateIn
    by_cases hmr : v.userID ∈ rest
    · rw [if_pos hmr, if_pos (List.mem_cons_of_mem _ hmr)]
    · rw [if_neg hmr, if_neg (by simp [hvid, hmr])]

/-- The map applied to the users table by one deactivation. -/
theorem setUserActive_run {db : DB} {uid : String} {u : User}
    (hu : findUser db uid = some u) (a : Bool) :
    Repository.setUserActive db uid a =
      (.ok { u with isActive := a },
       { db with users := (db.users.map
           (fun v => if v.userID = uid then { v with isActive := a } else v)) }) := by
  unfold Repository.setUserActive
  rw [hu]

theorem validateUsers_all_ok (teamName : String) :
    ∀ (ids : List String) (db : DB),
    (db.users.map (·.userID)).Nodup →
    (∀ uid ∈ ids, validMember db teamName uid) →
    Service.validateUsers teamName ids db =
      (ids, none, { db with users := db.users.map (deactivateIn ids) }) := by
  intro ids
  induction ids with
  | nil =>
    intro db hnd hv
    show ([], none, db) = _
    rw [map_deactivateIn_nil]
  | cons uid rest ih =>
    intro db hnd hv
    obtain ⟨u, hu, hteam⟩ := hv uid (List.mem_cons_self uid rest)
    have hfix1 : ∀ v : User,
        ((if v.userID = uid then { v with isActive := false } else v) : User).userID =
          v.userID := fun v => by split <;> rfl
    have hfix2 : ∀ v : User,
        ((if v.userID = uid then { v with isActive := false } else v) : User).teamName =
          v.teamName := fun v => by split <;> rfl
    unfold Service.validateUsers
    simp only [getUser_ok hu]
    rw [if_neg (not_not_intro hteam)]
    by_cases hact : u.isActive = true
    · rw [if_pos hact]
      simp only [setUserActive_run hu false]
      have hnd1 : ((db.users.map
          (fun v => if v.userID = uid then { v with isActive := false } else v)).map
          (·.userID)).Nodup := by
        rw [map_userID_map _ _ hfix1]
        exact hnd
      have hv1 : ∀ uid2 ∈ rest, validMember
          { db with users := (db.users.map
              (fun v => if v.userID = uid then { v with isActive := false } else v)) }
          teamName uid2 := by
        intro uid2 hm
        exact (validMember_map_iff db _ hfix1 hfix2 teamName uid2).mpr
          (hv uid2 (List.mem_cons_of_mem uid hm))
      have hrec := ih _ hnd1 hv1
      simp only [hrec]
      rw [deactivate_cons_of_active]
    · rw [if_neg hact]
      have hrec := ih db hnd (fun uid2 hm => hv uid2 (List.mem_cons_of_mem uid hm))
      simp only [hrec]
      rw [deactivate_cons_of_inactive rest hnd hu (by simpa using hact)]

theorem validateUsers_abort (teamName : String) :
    ∀ (ids : List String) (db : DB) (k : Nat) (hk : k < ids.length),
    (db.users.map (·.userID)).Nodup →
    (∀ j (hj : j < ids.length), j < k → validMember db teamName (ids.get ⟨j, hj⟩)) →
    ¬ validMember db teamName (ids.get ⟨k, hk⟩) →
    ∃ msg, Service.validateUsers teamName ids db =
      (ids.take k, some (.domain .NotFound msg),
       { db with users := db.users.map (deactivateIn (ids.take k)) }) := by
  intro ids
  induction ids with
  | nil =>
    intro db k hk hnd hv hbad
    simp at hk
  | cons uid rest ih =>
    intro db k hk hnd hv hbad
    cases k with
    | zero =>
      have hbad0 : ¬ validMember db teamName uid := hbad
      unfold Service.validateUsers
      cases hfu : findUser db uid with
      | none =>
        simp only [getUser_err hfu]
        refine ⟨"user " ++ uid ++ " not found", ?_⟩
        show ([], _, db) = _
        rw [List.take_zero, map_deactivateIn_nil]
      | some u =>
        have hne : ¬ u.teamName = teamName := fun hteq => hbad0 ⟨u, hfu, hteq⟩
        simp only [getUser_ok hfu]
        rw [if_pos hne]
        refine ⟨"user " ++ uid ++ " does not belong to team " ++ teamName, ?_⟩
        show ([], _, db) = _
        rw [List.take_zero, map_deactivateIn_nil]
    | succ k0 =>
      have hk0 : k0 < rest.length := by simpa using hk
      obtain ⟨u, hu0, hteam⟩ := hv 0 (by simp) (by omega)
      have hu : findUser db uid = some u := hu0
      have hfix1 : ∀ v : User,
          ((if v.userID = uid then { v with isActive := false } else v) : User).userID =
            v.userID := fun v => by split <;> rfl
      have hfix2 : ∀ v : User,
          ((if v.userID = uid then { v with isActive := false } else v) : User).teamName =
            v.teamName := fun v => by split <;> rfl
      unfold Service.validateUsers
      simp only [getUser_ok hu]
      rw [if_neg (not_not_intro hteam)]
      by_cases hact : u.isActive = true
      · rw [if_pos hact]
        simp only [setUserActive_run hu false]
        have hnd1 : ((db.users.map
            (fun v => if v.userID = uid then { v with isActive := false } else v)).map
            (·.userID)).Nodup := by
          rw [map_userID_map _ _ hfix1]
          exact hnd
        have hv1 : ∀ j (hj : j < rest.length), j < k0 → validMember
            { db with users := (db.users.map
                (fun v => if v.userID = uid then { v with isActive := false } else v)) }
            teamName (rest.get ⟨j, hj⟩) := by
          intro j hj hjk
          exact (validMember_map_iff db _ hfix1 hfix2 teamName _).mpr
            (hv (j + 1) (by simpa using hj) (by omega))
        have hbad1 : ¬ validMember
            { db with users := (db.users.map
                (fun v => if v.userID = uid then { v with isActive := false } else v)) }
            teamName (rest.get ⟨k0, hk0⟩) :=
          fun hvm => hbad ((validMember_map_iff db _ hfix1 hfix2 teamName _).mp hvm)
        obtain ⟨msg, hrec⟩ := ih
          { db with users := (db.users.map
              (fun v => if v.userID = uid then { v with isActive := false } else v)) }
          k0 hk0 hnd1 hv1 hbad1
        refine ⟨msg, ?_⟩
        simp only [hrec]
        show (uid :: rest.take k0, _, _) = (uid :: rest.take k0, _, _)
        rw [deactivate_cons_of_active]
        rfl
      · rw [if_neg hact]
        have hv2 : ∀ j (hj : j < rest.length), j < k0 →
            validMember db teamName (rest.get ⟨j, hj⟩) := by
          intro j hj hjk
          exact hv (j + 1) (by simpa using hj) (by omega)
        obtain ⟨msg, hrec⟩ := ih db k0 hk0 hnd hv2 hbad
        refine ⟨msg, ?_⟩
        simp only [hrec]
        show (uid :: rest.take k0, _, _) = (uid :: rest.take k0, _, _)
        rw [deactivate_cons_of_inactive (rest.take k0) hnd hu (by simpa using hact)]
        rfl

/-- C5: bulk deactivation validates ids sequentially in input order; the
first missing user or team mismatch aborts the whole operation with a
NotFound domain error, the returned deactivated list is exactly the prefix
of ids validated before the abort, every user of that prefix has been
deactivated, and only the users table (active flags) has changed. -/
theorem bulk_validation_spec (r : Nat → Nat) (db : DB) (teamName : String)
    (ids : List String) (k : Nat) (hwf : db.WF) (hk : k < ids.length)
    (hvalid : ∀ j (hj : j < ids.length), j < k →
      validMember db teamName (ids.get ⟨j, hj⟩))
    (hbad : ¬ validMember db teamName (ids.get ⟨k, hk⟩)) :
    ∃ msg,
      Service.DeactivateTeamUsersAndReassign r db teamName ids =
        ({ teamName := teamName, deactivated := ids.take k,
           reassignedReviewers := 0, removedReviewers := 0,
           affectedPullRequests := 0 },
         some (.domain .NotFound msg),
         { db with users := db.users.map (deactivateIn (ids.take k)) }) ∧
      (∀ j (hj : j < ids.length), j < k →
        ∃ u, findUser { db with users := db.users.map (deactivateIn (ids.take k)) }
            (ids.get ⟨j, hj⟩) = some u ∧ u.isActive = false ∧
          u.teamName = teamName) := by
  obtain ⟨-, hndu, -, -, -, -⟩ := hwf
  obtain ⟨msg, hval⟩ := validateUsers_abort teamName ids db k hk hndu hvalid hbad
  refine ⟨msg, ?_, ?_⟩
  · have hne : ¬ ids.isEmpty = true := by
      rw [List.isEmpty_eq_true]
      intro he
      subst he
      simp at hk
    unfold Service.DeactivateTeamUsersAndReassign
    rw [if_neg hne]
    simp only [hval]
  · intro j hj hjk
    obtain ⟨u, hu, hteam⟩ := hvalid j hj hjk
    have hmem : u.userID ∈ ids.take k := by
      rw [(findUser_some hu).2, List.get_eq_getElem, List.getElem_take' ids hj hjk]
      exact List.getElem_mem _
    refine ⟨deactivateIn (ids.take k) u, ?_, ?_, ?_⟩
    · rw [findUser_map (deactivateIn (ids.take k)) (deactivateIn_userID _), hu]
      rfl
    · unfold deactivateIn
      rw [if_pos hmem]
    · rw [deactivateIn_teamName]
      exact hteam

theorem bulk_validation_spec_witness :
    ∃ msg,
      Service.DeactivateTeamUsersAndReassign r0 dbC2 "core" ["b", "ghost"] =
        ({ teamName := "core", deactivated := (["b", "ghost"] : List String).take 1,
           reassignedReviewers := 0, removedReviewers := 0,
           affectedPullRequests := 0 },
         some (.domain .NotFound msg),
         { dbC2 with users := (dbC2.users.map
             (deactivateIn ((["b", "ghost"] : List String).take 1))) }) ∧
      (∀ j (hj : j < (["b", "ghost"] : List String).length), j < 1 →
        ∃ u, findUser
            { dbC2 with users := (dbC2.users.map
                (deactivateIn ((["b", "ghost"] : List String).take 1))) }
            ((["b", "ghost"] : List String).get ⟨j, hj⟩) = some u ∧
          u.isActive = false ∧ u.teamName = "core") :=
  bulk_validation_spec r0 dbC2 "core" ["b", "ghost"] 1 (by decide) (by decide)
    (by
      intro j hj hjk
      have hj0 : j = 0 := by omega
      subst hj0
      exact ⟨⟨"b", "B", "core", true⟩, rfl, rfl⟩)
    (by
      intro hvm
      obtain ⟨u, hu, -⟩ := hvm
      have hu2 : (none : Option User) = some u := hu
      cases hu2)

theorem validateUsers_ok_ids (teamName : String) :
    ∀ (ids : List String) (db : DB) (v : List String) (db1 : DB),
    Service.validateUsers teamName ids db = (v, none, db1) → v = ids := by
  intro ids
  induction ids with
  | nil =>
    intro db v db1 h
    exact (congrArg (fun t => t.1) h).symm
  | cons uid rest ih =>
    intro db v db1 h
    unfold Service.validateUsers at h
    cases hg : Repository.getUser db uid with
    | error e =>
      rw [hg] at h
      cases e <;> simp at h
    | ok user =>
      rw [hg] at h
      dsimp only at h
      by_cases ht : ¬ user.teamName = teamName
      · rw [if_pos ht] at h
        simp at h
      · rw [if_neg ht] at h
        by_cases hact : user.isActive = true
        · rw [if_pos hact] at h
          rcases hs : Repository.setUserActive db uid false with ⟨sres, dbs⟩
          rw [hs] at h
          cases sres with
          | error e =>
            cases e <;> simp at h
          | ok w =>
            dsimp only at h
            rcases hr : Service.validateUsers teamName rest dbs with ⟨ids2, err2, db3⟩
            rw [hr] at h
            dsimp only at h
            simp only [Prod.mk.injEq] at h
            obtain ⟨hv, herr, -⟩ := h
            rw [← hv, ih dbs ids2 db3 (by rw [hr, ← herr])]
        · rw [if_neg hact] at h
          dsimp only at h
          rcases hr : Service.validateUsers teamName rest db with ⟨ids2, err2, db3⟩
          rw [hr] at h
          dsimp only at h
          simp only [Prod.mk.injEq] at h
          obtain ⟨hv, herr, -⟩ := h
          rw [← hv, ih db ids2 db3 (by rw [hr, ← herr])]

theorem bulk_success_run (r : Nat → Nat) (db : DB) (teamName : String)
    (ids : List String) (res : Service.BulkDeactivateResult) (db2 : DB)
    (h : Service.DeactivateTeamUsersAndReassign r db teamName ids = (res, none, db2)) :
    res.deactivated = ids ∧
    ∃ db1 st, Service.validateUsers teamName ids db = (ids, none, db1) ∧
      Service.processUsers r ids ⟨db1, 0, 0, []⟩ = (none, st) ∧
      res.reassignedReviewers = st.reassigned ∧
      res.removedReviewers = st.removed ∧
      res.affectedPullRequests = st.affected.length ∧ db2 = st.db := by
  unfold Service.DeactivateTeamUsersAndReassign at h
  by_cases hemp : ids.isEmpty = true
  · rw [if_pos hemp] at h
    have hids : ids = [] := List.isEmpty_eq_true.mp hemp
    subst hids
    simp only [Prod.mk.injEq] at h
    obtain ⟨hres, -, hdb⟩ := h
    subst hres
    exact ⟨rfl, db, ⟨db, 0, 0, []⟩, rfl, rfl, rfl, rfl, rfl, hdb.symm⟩
  · rw [if_neg hemp] at h
    rcases hval : Service.validateUsers teamName ids db with ⟨validated, verr, db1⟩
    rw [hval] at h
    cases verr with
    | some e => simp at h
    | none =>
      have hids : validated = ids :=
        validateUsers_ok_ids teamName ids db validated db1 hval
      subst hids
      dsimp only at h
      rcases hproc : Service.processUsers r validated ⟨db1, 0, 0, []⟩ with ⟨perr, st⟩
      rw [hproc] at h
      cases perr with
      | some e => simp at h
      | none =>
        dsimp only at h
        simp only [Prod.mk.injEq] at h
        obtain ⟨hres, -, hdb⟩ := h
        subst hres
        exact ⟨rfl, db1, st, rfl, hproc, rfl, rfl, rfl, hdb.symm⟩

/-- C10: whenever bulk deactivation returns without error, the deactivated
list is exactly the input id list, in order - users already inactive are
included like the rest - and the reassignment phase has run over that full
id list, producing the reported counters. -/
theorem bulk_success_processes_all (r : Nat → Nat) (db : DB) (teamName : String)
    (ids : List String) (res : Service.BulkDeactivateResult) (db2 : DB)
    (h : Service.DeactivateTeamUsersAndReassign r db teamName ids = (res, none, db2)) :
    res.deactivated = ids ∧
    ∃ db1 st, Service.validateUsers teamName ids db = (ids, none, db1) ∧
      Service.processUsers r ids ⟨db1, 0, 0, []⟩ = (none, st) ∧
      res.reassignedReviewers = st.reassigned ∧
      res.removedReviewers = st.removed ∧
      res.affectedPullRequests = st.affected.length ∧ db2 = st.db :=
  bulk_success_run r db teamName ids res db2 h

/-- The store after the successful single-user bulk run on dbC2. -/
def dbC10 : DB :=
  { teams := ["core"],
    users := [⟨"a", "A", "core", true⟩, ⟨"b", "B", "core", false⟩,
              ⟨"c", "C", "core", true⟩],
    prs := [⟨"p1", "one", "a", "OPEN", 1, none⟩],
    reviewers := [("p1", "c")] }

theorem bulk_success_processes_all_witness :
    (⟨"core", ["b"], 1, 0, 1⟩ : Service.BulkDeactivateResult).deactivated = ["b"] ∧
    ∃ db1 st, Service.validateUsers "core" ["b"] dbC2 = (["b"], none, db1) ∧
      Service.processUsers r0 ["b"] ⟨db1, 0, 0, []⟩ = (none, st) ∧
      (⟨"core", ["b"], 1, 0, 1⟩ : Service.BulkDeactivateResult).reassignedReviewers =
        st.reassigned ∧
      (⟨"core", ["b"], 1, 0, 1⟩ : Service.BulkDeactivateResult).removedReviewers =
        st.removed ∧
      (⟨"core", ["b"], 1, 0, 1⟩ : Service.BulkDeactivateResult).affectedPullRequests =
        st.affected.length ∧
      dbC10 = st.db :=
  bulk_success_processes_all r0 dbC2 "core" ["b"] ⟨"core", ["b"], 1, 0, 1⟩ dbC10 rfl

/-! C4: per-pull-request processing of bulk deactivation. -/

theorem insertAffected_nodup {s : List String} (h : s.Nodup) (x : String) :
    (Service.insertAffected s x).Nodup := by
  unfold Service.insertAffected
  split
  · exact h
  · next hmem =>
    rw [List.nodup_append]
    refine ⟨h, List.nodup_singleton x, ?_⟩
    intro a ha hax
    rw [List.mem_singleton] at hax
    exact hmem (hax ▸ ha)

theorem mem_insertAffected (s : List String) (x : String) :
    x ∈ Service.insertAffected s x := by
  unfold Service.insertAffected
  split
  · next hmem => exact hmem
  · simp

theorem processPRs_nodup (r : Nat → Nat) (uid : String) :
    ∀ (prs : List PullRequestShort) (st : Service.BulkSt), st.affected.Nodup →
    ((Service.processPRs r uid prs st).2).affected.Nodup := by
  intro prs
  induction prs with
  | nil => exact fun st h => h
  | cons p rest ih =>
    intro st h
    simp only [Service.processPRs]
    by_cases hst : ¬ p.status = statusOpen
    · rw [if_pos hst]
      exact ih st h
    · rw [if_neg hst]
      rcases hre : Service.ReassignReviewer r st.db p.id uid with ⟨rres, db1⟩
      cases rres with
      | ok rr =>
        exact ih _ (insertAffected_nodup h rr.pr.id)
      | error e =>
        dsimp only
        by_cases hnc : e.isNoCandidate = true
        · rw [if_pos hnc]
          exact ih _ (insertAffected_nodup h p.id)
        · rw [if_neg hnc]
          exact h

theorem processUsers_nodup (r : Nat → Nat) :
    ∀ (ids : List String) (st : Service.BulkSt), st.affected.Nodup →
    ((Service.processUsers r ids st).2).affected.Nodup := by
  intro ids
  induction ids with
  | nil => exact fun st h => h
  | cons uid rest ih =>
    intro st h
    simp only [Service.processUsers]
    rcases hp : Service.processPRs r uid (Repository.getPRsForReviewer st.db uid) st
      with ⟨perr, st1⟩
    have hnd1 : st1.affected.Nodup := by
      have := processPRs_nodup r uid (Repository.getPRsForReviewer st.db uid) st h
      rw [hp] at this
      exact this
    cases perr with
    | none => exact ih st1 hnd1
    | some e => exact hnd1

/-- C4: while processing the open pull requests of a deactivated user, a
successful reassignment advances the loop with the reassigned counter
incremented and the pull request recorded as affected; a NoCandidate failure
removes the reviewer binding entirely and increments the removed counter,
recording the pull request as affected; any other failure aborts the whole
bulk operation surfacing that error; and on success the affected figure of
the result is the number of distinct recorded pull request ids. -/
theorem bulk_processing_spec (r : Nat → Nat) :
    (∀ uid p rest st rr db1, p.status = statusOpen →
      Service.ReassignReviewer r st.db p.id uid = (.ok rr, db1) →
      Service.processPRs r uid (p :: rest) st =
        Service.processPRs r uid rest
          ⟨db1, st.reassigned + 1, st.removed,
           Service.insertAffected st.affected rr.pr.id⟩) ∧
    (∀ uid p rest st e db1, p.status = statusOpen →
      Service.ReassignReviewer r st.db p.id uid = (.error e, db1) →
      e.isNoCandidate = true →
      Service.processPRs r uid (p :: rest) st =
        Service.processPRs r uid rest
          ⟨Repository.removeReviewer db1 p.id uid, st.reassigned, st.removed + 1,
           Service.insertAffected st.affected p.id⟩) ∧
    (∀ s x, x ∈ Service.insertAffected s x) ∧
    (∀ db0 prID uid2,
      ¬ (prID, uid2) ∈ (Repository.removeReviewer db0 prID uid2).reviewers ∧
      (∀ b ∈ db0.reviewers, ¬ b = (prID, uid2) →
        b ∈ (Repository.removeReviewer db0 prID uid2).reviewers)) ∧
    (∀ uid p rest st e db1, p.status = statusOpen →
      Service.ReassignReviewer r st.db p.id uid = (.error e, db1) →
      e.isNoCandidate = false →
      Service.processPRs r uid (p :: rest) st = (some e, { st with db := db1 })) ∧
    (∀ db teamName ids validated db1 e st, ¬ ids = [] →
      Service.validateUsers teamName ids db = (validated, none, db1) →
      Service.processUsers r validated ⟨db1, 0, 0, []⟩ = (some e, st) →
      Service.DeactivateTeamUsersAndReassign r db teamName ids =
        ({ teamName := teamName, deactivated := validated,
           reassignedReviewers := st.reassigned, removedReviewers := st.removed,
           affectedPullRequests := 0 }, some e, st.db)) ∧
    (∀ db teamName ids res db2,
      Service.DeactivateTeamUsersAndReassign r db teamName ids = (res, none, db2) →
      ∃ db1 st,
        Service.validateUsers teamName ids db = (ids, none, db1) ∧
        Service.processUsers r ids ⟨db1, 0, 0, []⟩ = (none, st) ∧
        st.affected.Nodup ∧
        res.affectedPullRequests = st.affected.toFinset.card ∧
        res.reassignedReviewers = st.reassigned ∧
        res.removedReviewers = st.removed) := by
  refine ⟨?_, ?_, mem_insertAffected, ?_, ?_, ?_, ?_⟩
  · intro uid p rest st rr db1 hopen hre
    simp only [Service.processPRs]
    rw [if_neg (not_not_intro hopen), hre]
  · intro uid p rest st e db1 hopen hre hnc
    simp only [Service.processPRs]
    rw [if_neg (not_not_intro hopen), hre]
    dsimp only
    rw [if_pos hnc]
  · intro db0 prID uid2
    constructor
    · intro hmem
      have := (List.mem_filter.mp hmem).2
      simp at this
    · intro b hb hne
      refine List.mem_filter.mpr ⟨hb, ?_⟩
      simp only [decide_eq_true_eq]
      intro hc
      apply hne
      obtain ⟨b1, b2⟩ := b
      simp only at hc
      rw [hc.1, hc.2]
  · intro uid p rest st e db1 hopen hre hnc
    simp only [Service.processPRs]
    rw [if_neg (not_not_intro hopen), hre]
    dsimp only
    rw [if_neg (by simp [hnc])]
  · intro db teamName ids validated db1 e st hne hval hproc
    unfold Service.DeactivateTeamUsersAndReassign
    rw [if_neg (by rw [List.isEmpty_eq_true] ; exact hne)]
    simp only [hval]
    simp only [hproc]
  · intro db teamName ids res db2 h
    obtain ⟨-, db1, st, hval, hproc, hre, hrm, haf, -⟩ :=
      bulk_success_run r db teamName ids res db2 h
    have hnd : st.affected.Nodup := by
      have := processUsers_nodup r ids ⟨db1, 0, 0, []⟩ (List.nodup_nil)
      rw [hproc] at this
      exact this
    refine ⟨db1, st, hval, hproc, hnd, ?_, hre, hrm⟩
    rw [haf, List.toFinset_card_of_nodup hnd]

/-- The store after the bulk run on dbRe that falls back to removal. -/
def dbC4 : DB :=
  { teams := ["core"],
    users := [⟨"a", "A", "core", true⟩, ⟨"b", "B", "core", false⟩,
              ⟨"c", "C", "core", false⟩],
    prs := [⟨"p1", "one", "a", "OPEN", 1, none⟩,
            ⟨"p2", "two", "a", "MERGED", 2, some 3⟩],
    reviewers := [] }

theorem bulk_processing_spec_witness :
    ∃ db1 st,
      Service.validateUsers "core" ["b"] dbRe = (["b"], none, db1) ∧
      Service.processUsers r0 ["b"] ⟨db1, 0, 0, []⟩ = (none, st) ∧
      st.affected.Nodup ∧
      (⟨"core", ["b"], 0, 1, 1⟩ : Service.BulkDeactivateResult).affectedPullRequests =
        st.affected.toFinset.card ∧
      (⟨"core", ["b"], 0, 1, 1⟩ : Service.BulkDeactivateResult).reassignedReviewers =
        st.reassigned ∧
      (⟨"core", ["b"], 0, 1, 1⟩ : Service.BulkDeactivateResult).removedReviewers =
        st.removed :=
  (bulk_processing_spec r0).2.2.2.2.2.2 dbRe "core" ["b"]
    ⟨"core", ["b"], 0, 1, 1⟩ dbC4 rfl

end AvitoReview
